import Mathlib

/-!
# ChatServer: the select() loop of `chat_server_task`

A shallow embedding of `src/main/ChatServer.c`.

* Socket handles are C `int`s, modelled as `Int`.
* An `fd_set` is modelled as a `Finset Int` (`FD_SET` = `insert`, `FD_CLR` = `erase`,
  `FD_ISSET` = membership); handles are assumed to fit the set's capacity.
* Every call into the socket layer, the mDNS component, the logger and the C runtime is
  recorded as an `Event` in a trace, in program order.  The values those calls return are
  inputs of the model (`StartupEnv`, `IterEnv`).
* The outer `while (1)` is run on a finite list of per-iteration inputs (`runLoop`); the inner
  dispatch loop, whose upper bound `fdmax` may grow while it runs, is run on fuel
  (`dispatchLoop`) and shown to finish with the fuel `iteration` gives it.
-/

namespace ChatServer

/-! ## Constants of the source -/

/-- The constant `KEEPALIVE_IDLE` (`#define KEEPALIVE_IDLE 5`). -/
def KEEPALIVE_IDLE : Int := 5

/-- The constant `KEEPALIVE_INTERVAL` (`#define KEEPALIVE_INTERVAL 5`). -/
def KEEPALIVE_INTERVAL : Int := 5

/-- The constant `KEEPALIVE_COUNT` (`#define KEEPALIVE_COUNT 3`). -/
def KEEPALIVE_COUNT : Int := 3

/-- Initial value of the local `keepAlive` (`int keepAlive = 1;`). -/
def keepAlive : Int := 1

/-- Initial value of the local `keepIdle`. -/
def keepIdle : Int := KEEPALIVE_IDLE

/-- Initial value of the local `keepInterval`. -/
def keepInterval : Int := KEEPALIVE_INTERVAL

/-- Initial value of the local `keepCount`. -/
def keepCount : Int := KEEPALIVE_COUNT

/-- Size of the receive buffer, `char buf[256]`. -/
def bufSize : Nat := 256

/-- Backlog passed to `listen`. -/
def backlog : Int := 10

/-- The literal sent on a timeout, as a C string (without its terminating NUL). -/
def heartbeatText : String := "hello??? are you still there???\n"

/-- Bytes of the heartbeat literal: what `send` is given, with length
`sizeof("...") - 1`. -/
def heartbeatMsg : List Nat := heartbeatText.toList.map Char.toNat

/-! ## Events -/

/-- Socket options set by the accept path. -/
inductive SockOpt where
  | SO_KEEPALIVE
  | TCP_KEEPIDLE
  | TCP_KEEPINTVL
  | TCP_KEEPCNT
  deriving DecidableEq

/-- The logging sites of `chat_server_task` (`ESP_LOGE`, `ESP_LOGI`, `perror`). -/
inductive LogMsg where
  | bindFailed
  | ipproto
  | listenFailed
  | socketListening
  | mdnsInitFailed
  | hostnameSet
  | perrorSelect
  | perrorAccept
  | newConnection
  | hungUp
  | recvError
  | sendError
  deriving DecidableEq

/-- The two `send` call sites: the relay loop (line 205) and the timeout loop (line 223). -/
inductive SendSite where
  | relay
  | heartbeat
  deriving DecidableEq

/-- One externally visible call made by `chat_server_task`. -/
inductive Event where
  | getaddrinfo
  | socket (ret : Int)
  | bind (fd : Int) (ret : Int)
  | freeaddrinfo
  | listen (fd : Int) (queue : Int) (ret : Int)
  | mdns_init (ret : Int)
  | mdns_hostname_set (ret : Int)
  | mdns_service_add (ret : Int)
  | select (nfds : Int) (watch : Finset Int) (ret : Int)
  | accept (fd : Int) (ret : Int)
  | setsockopt (fd : Int) (opt : SockOpt) (val : Int)
  | recv (fd : Int) (len : Nat) (ret : Int)
  | close (fd : Int)
  | send (site : SendSite) (fd : Int) (payload : List Nat) (ret : Int)
  | log (msg : LogMsg)
  | exit (code : Int)
  | abort
  | vTaskDelete
  deriving DecidableEq

/-! ## State and inputs -/

/-- The variables of the loop: the wait set `master`, the listening socket and the two scan
bounds. -/
structure LoopState where
  master : Finset Int
  listener : Int
  fdmin : Int
  fdmax : Int
  deriving DecidableEq

/-- What one `recv(i, buf, sizeof buf, 0)` produced: its return value and the contents of
`buf` afterwards (the bytes read come first). -/
structure RecvResult where
  nbytes : Int
  buf : List Nat

/-- What the outside world answers during one iteration of `while (1)`. -/
structure IterEnv where
  /-- return value of `select` -/
  selectRet : Int
  /-- `read_fds` as `select` leaves it -/
  read_fds : Finset Int
  /-- return value of `accept(listener, ...)` -/
  acceptRet : Int
  /-- result of `recv` on a handle -/
  recvRet : Int → RecvResult
  /-- return value of the relay `send` from reader `i` to recipient `j` -/
  sendRet : Int → Int → Int
  /-- return value of the timeout `send` to recipient `j` -/
  hbSendRet : Int → Int

/-- The state carried through one dispatch pass: the loop variables, the flag `found` and
the calls made so far. -/
structure Pass where
  st : LoopState
  found : Bool
  trace : List Event

/-- The handles `lo, lo+1, ..., hi` that `for (j = lo; j <= hi; j++)` visits when its body
leaves the bounds alone. -/
def fdRange (lo hi : Int) : List Int :=
  (List.range (hi + 1 - lo).toNat).map (fun (k : Nat) => lo + (k : Int))

/-! ## The loop body -/

/-- Body of the relay loop (lines 202-209) for recipient `j`, reader `i`. -/
def relaySend (env : IterEnv) (s : LoopState) (i : Int) (payload : List Nat) (j : Int) :
    List Event :=
  if j ∈ s.master then
    if j ≠ s.listener ∧ j ≠ i then
      if env.sendRet i j = -1 then
        [Event.send SendSite.relay j payload (env.sendRet i j), Event.log LogMsg.sendError]
      else [Event.send SendSite.relay j payload (env.sendRet i j)]
    else []
  else []

/-- The relay loop `for (j = fdmin; j <= fdmax; j++)` of lines 200-210. -/
def relayPass (env : IterEnv) (s : LoopState) (i : Int) (payload : List Nat) : List Event :=
  (fdRange s.fdmin s.fdmax).flatMap (relaySend env s i payload)

/-- Body of the timeout loop (lines 220-227) for recipient `j`. -/
def heartbeatSend (env : IterEnv) (s : LoopState) (j : Int) : List Event :=
  if j ∈ s.master then
    if j ≠ s.listener then
      if env.hbSendRet j = -1 then
        [Event.send SendSite.heartbeat j heartbeatMsg (env.hbSendRet j),
          Event.log LogMsg.sendError]
      else [Event.send SendSite.heartbeat j heartbeatMsg (env.hbSendRet j)]
    else []
  else []

/-- The timeout loop `for (j = fdmin; j <= fdmax; j++)` of lines 218-228. -/
def heartbeatPass (env : IterEnv) (s : LoopState) : List Event :=
  (fdRange s.fdmin s.fdmax).flatMap (heartbeatSend env s)

/-- The call `FD_SET(newfd, &master)` followed by the two bound updates (lines 174-176). -/
def addConn (s : LoopState) (newfd : Int) : LoopState :=
  let s1 : LoopState := { s with master := insert newfd s.master }
  let s2 : LoopState := if newfd > s1.fdmax then { s1 with fdmax := newfd } else s1
  if newfd < s2.fdmin then { s2 with fdmin := newfd } else s2

/-- The call `FD_CLR(i, &master)` (line 197). -/
def removeConn (s : LoopState) (i : Int) : LoopState :=
  { s with master := s.master.erase i }

/-- The four `setsockopt` calls of lines 178-181. -/
def keepaliveOpts (newfd : Int) : List Event :=
  [Event.setsockopt newfd SockOpt.SO_KEEPALIVE keepAlive,
   Event.setsockopt newfd SockOpt.TCP_KEEPIDLE keepIdle,
   Event.setsockopt newfd SockOpt.TCP_KEEPINTVL keepInterval,
   Event.setsockopt newfd SockOpt.TCP_KEEPCNT keepCount]

/-- The branch `i == listener` (lines 167-183). -/
def acceptPath (env : IterEnv) (p : Pass) : Pass :=
  let newfd := env.acceptRet
  let tr := p.trace ++ [Event.accept p.st.listener newfd]
  if newfd = -1 then
    { p with trace := tr ++ [Event.log LogMsg.perrorAccept] }
  else
    { p with
      st := addConn p.st newfd
      trace := tr ++ keepaliveOpts newfd ++ [Event.log LogMsg.newConnection] }

/-- The branch `i != listener` (lines 185-211). -/
def recvPath (env : IterEnv) (p : Pass) (i : Int) : Pass :=
  let r := env.recvRet i
  let tr := p.trace ++ [Event.recv i bufSize r.nbytes]
  if r.nbytes ≤ 0 then
    { p with
      st := removeConn p.st i
      trace := tr ++ [Event.log (if r.nbytes = 0 then LogMsg.hungUp else LogMsg.recvError),
                      Event.close i] }
  else
    { p with trace := tr ++ relayPass env p.st i (r.buf.take r.nbytes.toNat) }

/-- Body of the dispatch loop for index `i` (lines 163-213). -/
def dispatchBody (env : IterEnv) (i : Int) (p : Pass) : Pass :=
  if i ∈ env.read_fds then
    let p1 : Pass := { p with found := true }
    if i = p1.st.listener then acceptPath env p1 else recvPath env p1 i
  else p

/-- The dispatch loop `for (int i = fdmin; i <= fdmax; i++)` (lines 162-214), entered at
index `i`.  The test `i <= fdmax` reads the current `fdmax`, which the accept path may have
raised.  `none` means the fuel ran out before the test failed. -/
def dispatchLoop (env : IterEnv) : Nat → Int → Pass → Option Pass
  | 0, i, p => if i ≤ p.st.fdmax then none else some p
  | fuel + 1, i, p =>
    if i ≤ p.st.fdmax then dispatchLoop env fuel (i + 1) (dispatchBody env i p) else some p

/-- How one iteration of `while (1)` ends. -/
inductive Outcome where
  | running (s : LoopState)
  | exited (code : Int)
  deriving DecidableEq

/-- Fuel for the dispatch loop of one iteration: the loop index runs from `fdmin` to at most
the larger of `fdmax` and the handle `accept` returns. -/
def dispatchFuel (s : LoopState) (env : IterEnv) : Nat :=
  (max s.fdmax env.acceptRet + 1 - s.fdmin).toNat

/-- One iteration of `while (1)` (lines 143-230). -/
def iteration (s : LoopState) (env : IterEnv) : Option (Outcome × List Event) :=
  let tr0 := [Event.select (s.fdmax + 1) s.master env.selectRet]
  if env.selectRet = -1 then
    some (Outcome.exited 4, tr0 ++ [Event.log LogMsg.perrorSelect, Event.exit 4])
  else
    match dispatchLoop env (dispatchFuel s env) s.fdmin
        { st := s, found := false, trace := tr0 } with
    | none => none
    | some p =>
      if !p.found then some (Outcome.running p.st, p.trace ++ heartbeatPass env p.st)
      else some (Outcome.running p.st, p.trace)

/-- The loop `while (1)` run on the inputs of finitely many iterations, appending to the
calls `tr` made before. -/
def runLoop : LoopState → List Event → List IterEnv → Option (Outcome × List Event)
  | s, tr, [] => some (Outcome.running s, tr)
  | s, tr, env :: rest =>
    match iteration s env with
    | none => none
    | some (Outcome.running s1, t) => runLoop s1 (tr ++ t) rest
    | some (Outcome.exited c, t) => some (Outcome.exited c, tr ++ t)

/-- The loop variables when `while (1)` is first entered (lines 123-126). -/
def initState (listener : Int) : LoopState :=
  { master := {listener}, listener := listener, fdmin := listener, fdmax := listener }

/-! ## Start-up and clean-up -/

/-- What the outside world answers during start-up. -/
structure StartupEnv where
  socketRet : Int
  bindRet : Int
  listenRet : Int
  mdnsInitRet : Int
  mdnsHostnameSetRet : Int
  mdnsServiceAddRet : Int

/-- How start-up ends. -/
inductive StartupEnd where
  | enterLoop (s : LoopState)
  | taskDeleted
  | aborted
  deriving DecidableEq

/-- The label `CLEAN_UP` (lines 231-233). -/
def cleanUp (listener : Int) : List Event :=
  [Event.close listener, Event.vTaskDelete]

/-- Lines 101-140 of `chat_server_task`.  `checkAborts` is the behaviour of the framework's
`ESP_ERROR_CHECK` on a non-zero code: `true` when it aborts (the default build), `false`
when it is compiled to a no-op. -/
def startup (checkAborts : Bool) (env : StartupEnv) : StartupEnd × List Event :=
  let listener := env.socketRet
  let tr1 := [Event.getaddrinfo, Event.socket listener, Event.bind listener env.bindRet]
  if env.bindRet ≠ 0 then
    (StartupEnd.taskDeleted,
      tr1 ++ [Event.log LogMsg.bindFailed, Event.log LogMsg.ipproto] ++ cleanUp listener)
  else
    let tr2 := tr1 ++ [Event.freeaddrinfo, Event.listen listener backlog env.listenRet]
    if env.listenRet ≠ 0 then
      (StartupEnd.taskDeleted, tr2 ++ [Event.log LogMsg.listenFailed] ++ cleanUp listener)
    else
      let tr3 := tr2 ++ [Event.log LogMsg.socketListening, Event.mdns_init env.mdnsInitRet]
      if env.mdnsInitRet ≠ 0 then
        (StartupEnd.taskDeleted, tr3 ++ [Event.log LogMsg.mdnsInitFailed] ++ cleanUp listener)
      else
        let tr4 := tr3 ++ [Event.mdns_hostname_set env.mdnsHostnameSetRet]
        if env.mdnsHostnameSetRet ≠ 0 ∧ checkAborts = true then
          (StartupEnd.aborted, tr4 ++ [Event.abort])
        else
          (StartupEnd.enterLoop (initState listener),
            tr4 ++ [Event.log LogMsg.hostnameSet,
                    Event.mdns_service_add env.mdnsServiceAddRet])

/-- How the task ends, or where it stands after the given iterations. -/
inductive TaskEnd where
  | serving (s : LoopState)
  | exited (code : Int)
  | taskDeleted
  | aborted
  deriving DecidableEq

/-- The task `chat_server_task`: start-up, then the loop on the given iterations. -/
def chat_server_task (checkAborts : Bool) (senv : StartupEnv) (envs : List IterEnv) :
    Option (TaskEnd × List Event) :=
  match startup checkAborts senv with
  | (StartupEnd.taskDeleted, tr) => some (TaskEnd.taskDeleted, tr)
  | (StartupEnd.aborted, tr) => some (TaskEnd.aborted, tr)
  | (StartupEnd.enterLoop s, tr) =>
    match runLoop s tr envs with
    | none => none
    | some (Outcome.running s1, t) => some (TaskEnd.serving s1, t)
    | some (Outcome.exited c, t) => some (TaskEnd.exited c, t)

/-! ## Observers on traces and states -/

/-- All send attempts of a trace, with their call site. -/
def sendsOf : List Event → List (SendSite × Int × List Nat)
  | [] => []
  | Event.send st fd pl _ :: t => (st, fd, pl) :: sendsOf t
  | _ :: t => sendsOf t

/-- Whether an event is a `send`, a `recv` or a `close` on handle `h`. -/
def Event.touches (h : Int) : Event → Bool
  | Event.send _ fd _ _ => decide (fd = h)
  | Event.recv fd _ _ => decide (fd = h)
  | Event.close fd => decide (fd = h)
  | _ => false

/-- Whether an event is an `accept`, a `recv` or a `send`. -/
def Event.isService : Event → Bool
  | Event.accept _ _ => true
  | Event.recv _ _ _ => true
  | Event.send _ _ _ _ => true
  | _ => false

/-- The recipients the relay loop reaches for reader `i`: the handles between the bounds
that are in `master` and are neither the listener nor the reader. -/
def relayTargets (s : LoopState) (i : Int) : List Int :=
  (fdRange s.fdmin s.fdmax).filter
    (fun j => decide (j ∈ s.master) && (decide (j ≠ s.listener) && decide (j ≠ i)))

/-- The recipients the timeout loop reaches. -/
def heartbeatTargets (s : LoopState) : List Int :=
  (fdRange s.fdmin s.fdmax).filter
    (fun j => decide (j ∈ s.master) && decide (j ≠ s.listener))

/-- The bounds enclose the wait set, and the listener is in it. -/
def Inv (s : LoopState) : Prop :=
  s.listener ∈ s.master ∧ s.fdmin ≤ s.fdmax ∧ ∀ h ∈ s.master, s.fdmin ≤ h ∧ h ≤ s.fdmax

/-- The loop states reachable from the initial one by the operations of the loop: a
successful accept, the eviction of a client handle, a relay pass and a heartbeat pass (the
last two leave the loop variables alone). -/
inductive Reachable (listener : Int) : LoopState → Prop where
  | init : Reachable listener (initState listener)
  | accept {s : LoopState} (newfd : Int) :
      Reachable listener s → newfd ≠ -1 → Reachable listener (addConn s newfd)
  | evict {s : LoopState} (i : Int) :
      Reachable listener s → i ≠ s.listener → Reachable listener (removeConn s i)
  | relay {s : LoopState} : Reachable listener s → Reachable listener s
  | heartbeat {s : LoopState} : Reachable listener s → Reachable listener s

/-- The loop variables after the body of the dispatch loop at index `i`. -/
def stepState (env : IterEnv) (i : Int) (s : LoopState) : LoopState :=
  if i ∈ env.read_fds then
    if i = s.listener then
      if env.acceptRet = -1 then s else addConn s env.acceptRet
    else if (env.recvRet i).nbytes ≤ 0 then removeConn s i else s
  else s

/-- The calls the body of the dispatch loop makes at index `i`. -/
def stepEvents (env : IterEnv) (i : Int) (s : LoopState) : List Event :=
  if i ∈ env.read_fds then
    if i = s.listener then
      if env.acceptRet = -1 then
        [Event.accept s.listener env.acceptRet, Event.log LogMsg.perrorAccept]
      else
        Event.accept s.listener env.acceptRet ::
          (keepaliveOpts env.acceptRet ++ [Event.log LogMsg.newConnection])
    else if (env.recvRet i).nbytes ≤ 0 then
      [Event.recv i bufSize (env.recvRet i).nbytes,
        Event.log (if (env.recvRet i).nbytes = 0 then LogMsg.hungUp else LogMsg.recvError),
        Event.close i]
    else
      Event.recv i bufSize (env.recvRet i).nbytes ::
        relayPass env s i ((env.recvRet i).buf.take (env.recvRet i).nbytes.toNat)
  else []

/-- The call to `select` that opens an iteration. -/
def selectEvent (s : LoopState) (env : IterEnv) : Event :=
  Event.select (s.fdmax + 1) s.master env.selectRet

/-- The inputs `env` with the results of all sends replaced. -/
def withSendResults (env : IterEnv) (f : Int → Int → Int) (g : Int → Int) : IterEnv :=
  { env with sendRet := f, hbSendRet := g }

/-! ## Monitors for the temporal claims -/

/-- The claim "every `recv`, `send` and `close` targets a handle that is a member of the wait
set at that moment", as a monitor on traces: starting from the members `m`, a successful
`accept` adds the handle it returns, a `close` removes its handle, and the replay fails
(`none`) at the first `recv`, `send` or `close` whose handle is not a member then.  In
particular it fails on any use of a handle after its `close` and before an `accept` returns
it again. -/
def membersAfter : Finset Int → List Event → Option (Finset Int)
  | m, [] => some m
  | m, Event.accept _ r :: t =>
    if r = -1 then membersAfter m t else membersAfter (insert r m) t
  | m, Event.recv fd _ _ :: t => if fd ∈ m then membersAfter m t else none
  | m, Event.send _ fd _ _ :: t => if fd ∈ m then membersAfter m t else none
  | m, Event.close fd :: t => if fd ∈ m then membersAfter (m.erase fd) t else none
  | m, _ :: t => membersAfter m t

/-- The assumption on `select` along a run, as a check: in every iteration the read set it
leaves is a subset of the wait set `master` it was given. -/
def selectSound : LoopState → List IterEnv → Bool
  | _, [] => true
  | s, env :: rest =>
    decide (env.read_fds ⊆ s.master) &&
      match iteration s env with
      | some (Outcome.running s1, _) => selectSound s1 rest
      | _ => true

/-- The handles admitted by a trace: those returned by its successful `accept` calls, in
order. -/
def admitted : List Event → List Int
  | [] => []
  | Event.accept _ r :: t => if r = -1 then admitted t else r :: admitted t
  | _ :: t => admitted t

/-- The bounds are exact, as claim C9 states it: `fdmin` is the smallest and `fdmax` the
largest handle in `master`. -/
def ExactBounds (s : LoopState) : Prop :=
  s.fdmin ∈ s.master ∧ s.fdmax ∈ s.master ∧ ∀ h ∈ s.master, s.fdmin ≤ h ∧ h ≤ s.fdmax

/-! ## Concrete inputs -/

/-- Start-up inputs in which every call succeeds and `socket` returns handle 3. -/
def okStartup : StartupEnv :=
  { socketRet := 3, bindRet := 0, listenRet := 0, mdnsInitRet := 0,
    mdnsHostnameSetRet := 0, mdnsServiceAddRet := 0 }

/-- An iteration in which `select` times out with nothing ready. -/
def quietEnv : IterEnv :=
  { selectRet := 0, read_fds := ∅, acceptRet := -1,
    recvRet := fun _ => { nbytes := 0, buf := [] },
    sendRet := fun _ _ => 0, hbSendRet := fun _ => 0 }

/-- An iteration in which `select` fails. -/
def selectFails : IterEnv := { quietEnv with selectRet := -1 }

/-- An iteration in which listener 3 is ready and `accept` returns handle 4. -/
def acceptFour : IterEnv := { quietEnv with selectRet := 1, read_fds := {3}, acceptRet := 4 }

/-- An iteration in which listener 3 is ready and `accept` returns handle 5. -/
def acceptFive : IterEnv := { quietEnv with selectRet := 1, read_fds := {3}, acceptRet := 5 }

/-- An iteration in which client 4 is ready and its `recv` returns 0 (orderly close). -/
def closeFour : IterEnv := { quietEnv with selectRet := 1, read_fds := {4} }

/-- An iteration in which client 4 is ready and its `recv` returns the two bytes of "hi" in a
buffer of 256 bytes. -/
def hiFromFour : IterEnv :=
  { quietEnv with
    selectRet := 1, read_fds := {4},
    recvRet := fun _ => { nbytes := 2, buf := [104, 105] ++ List.replicate 254 0 } }

/-- Start-up inputs in which only `mdns_hostname_set` fails. -/
def hostnameFails : StartupEnv := { okStartup with mdnsHostnameSetRet := -1 }

/-- Start-up inputs in which `bind` fails. -/
def bindFails : StartupEnv := { okStartup with bindRet := -1 }

/-- The loop state with listener 3 and clients 4 and 5. -/
def twoClients : LoopState := addConn (addConn (initState 3) 4) 5

/-! ## Basic facts -/

theorem mem_fdRange {lo hi j : Int} : j ∈ fdRange lo hi ↔ lo ≤ j ∧ j ≤ hi := by
  unfold fdRange
  simp only [List.mem_map, List.mem_range]
  constructor
  · rintro ⟨k, hk, rfl⟩
    omega
  · rintro ⟨h1, h2⟩
    exact ⟨(j - lo).toNat, by omega, by omega⟩

theorem fdRange_nodup (lo hi : Int) : (fdRange lo hi).Nodup := by
  unfold fdRange
  apply List.Nodup.map _ (List.nodup_range _)
  intro a b h
  simpa using h

theorem sendsOf_append (a b : List Event) : sendsOf (a ++ b) = sendsOf a ++ sendsOf b := by
  induction a with
  | nil => rfl
  | cons e t ih => cases e <;> simp [sendsOf, ih]

theorem sendsOf_relay_flatMap (env : IterEnv) (s : LoopState) (i : Int) (pl : List Nat)
    (l : List Int) :
    sendsOf (l.flatMap (relaySend env s i pl)) =
      (l.filter (fun j => decide (j ∈ s.master) && (decide (j ≠ s.listener) && decide (j ≠ i)))).map
        (fun j => (SendSite.relay, j, pl)) := by
  induction l with
  | nil => rfl
  | cons j t ih =>
    rw [List.flatMap_cons, sendsOf_append, ih]
    unfold relaySend
    by_cases h1 : j ∈ s.master <;> by_cases h2 : j ≠ s.listener ∧ j ≠ i <;>
      by_cases h3 : env.sendRet i j = -1 <;> simp [h1, h2, h3, sendsOf, List.filter_cons]

theorem sendsOf_relayPass (env : IterEnv) (s : LoopState) (i : Int) (pl : List Nat) :
    sendsOf (relayPass env s i pl) = (relayTargets s i).map (fun j => (SendSite.relay, j, pl)) :=
  sendsOf_relay_flatMap env s i pl _

theorem sendsOf_heartbeat_flatMap (env : IterEnv) (s : LoopState) (l : List Int) :
    sendsOf (l.flatMap (heartbeatSend env s)) =
      (l.filter (fun j => decide (j ∈ s.master) && decide (j ≠ s.listener))).map
        (fun j => (SendSite.heartbeat, j, heartbeatMsg)) := by
  induction l with
  | nil => rfl
  | cons j t ih =>
    rw [List.flatMap_cons, sendsOf_append, ih]
    unfold heartbeatSend
    by_cases h1 : j ∈ s.master <;> by_cases h2 : j ≠ s.listener <;>
      by_cases h3 : env.hbSendRet j = -1 <;> simp [h1, h2, h3, sendsOf, List.filter_cons]

theorem sendsOf_heartbeatPass (env : IterEnv) (s : LoopState) :
    sendsOf (heartbeatPass env s) =
      (heartbeatTargets s).map (fun j => (SendSite.heartbeat, j, heartbeatMsg)) :=
  sendsOf_heartbeat_flatMap env s _

theorem relayTargets_nodup (s : LoopState) (i : Int) : (relayTargets s i).Nodup :=
  List.Nodup.filter _ (fdRange_nodup _ _)

theorem heartbeatTargets_nodup (s : LoopState) : (heartbeatTargets s).Nodup :=
  List.Nodup.filter _ (fdRange_nodup _ _)

theorem mem_relayTargets {s : LoopState} {i j : Int} :
    j ∈ relayTargets s i ↔
      (s.fdmin ≤ j ∧ j ≤ s.fdmax) ∧ j ∈ s.master ∧ j ≠ s.listener ∧ j ≠ i := by
  simp [relayTargets, mem_fdRange]

theorem mem_heartbeatTargets {s : LoopState} {j : Int} :
    j ∈ heartbeatTargets s ↔ (s.fdmin ≤ j ∧ j ≤ s.fdmax) ∧ j ∈ s.master ∧ j ≠ s.listener := by
  simp [heartbeatTargets, mem_fdRange]

/-! ## The loop variables under `addConn` and `removeConn` -/

theorem addConn_master (s : LoopState) (n : Int) : (addConn s n).master = insert n s.master := by
  unfold addConn
  simp only
  split <;> split <;> rfl

theorem addConn_listener (s : LoopState) (n : Int) : (addConn s n).listener = s.listener := by
  unfold addConn
  simp only
  split <;> split <;> rfl

theorem addConn_fdmax (s : LoopState) (n : Int) : (addConn s n).fdmax = max s.fdmax n := by
  unfold addConn
  simp only
  split <;> split <;> simp <;> omega

theorem addConn_fdmin (s : LoopState) (n : Int) : (addConn s n).fdmin = min s.fdmin n := by
  unfold addConn
  simp only
  split <;> split <;> simp at * <;> omega

theorem Inv_init (listener : Int) : Inv (initState listener) := by
  simp [Inv, initState]

theorem Inv_addConn {s : LoopState} (n : Int) (h : Inv s) : Inv (addConn s n) := by
  obtain ⟨h1, h2, h3⟩ := h
  have hmin := addConn_fdmin s n
  refine ⟨?_, ?_, ?_⟩
  · rw [addConn_master, addConn_listener]
    exact Finset.mem_insert_of_mem h1
  · rw [addConn_fdmax, hmin]
    omega
  · intro x hx
    rw [addConn_master, Finset.mem_insert] at hx
    rw [addConn_fdmax, hmin]
    rcases hx with rfl | hx
    · omega
    · have := h3 x hx
      omega

theorem Inv_removeConn {s : LoopState} (i : Int) (hi : i ≠ s.listener) (h : Inv s) :
    Inv (removeConn s i) := by
  obtain ⟨h1, h2, h3⟩ := h
  refine ⟨?_, h2, ?_⟩
  · exact Finset.mem_erase.mpr ⟨fun e => hi e.symm, h1⟩
  · intro x hx
    exact h3 x (Finset.mem_of_mem_erase hx)

theorem Reachable.listener_eq {l : Int} {s : LoopState} (h : Reachable l s) :
    s.listener = l := by
  induction h with
  | init => rfl
  | accept n _ _ ih => rw [addConn_listener]; exact ih
  | evict i _ _ ih => exact ih
  | relay _ ih => exact ih
  | heartbeat _ ih => exact ih

theorem Reachable.inv {l : Int} {s : LoopState} (h : Reachable l s) : Inv s := by
  induction h with
  | init => exact Inv_init _
  | accept n _ _ ih => exact Inv_addConn n ih
  | evict i _ hi ih => exact Inv_removeConn i hi ih
  | relay _ ih => exact ih
  | heartbeat _ ih => exact ih

/-! ## One step of the dispatch loop -/

theorem dispatchBody_eq (env : IterEnv) (i : Int) (p : Pass) :
    dispatchBody env i p =
      { st := stepState env i p.st
        found := p.found || decide (i ∈ env.read_fds)
        trace := p.trace ++ stepEvents env i p.st } := by
  unfold dispatchBody stepState stepEvents acceptPath recvPath
  by_cases h1 : i ∈ env.read_fds
  · by_cases h2 : i = p.st.listener
    · subst h2
      by_cases h3 : env.acceptRet = -1 <;> simp [h1, h3]
    · by_cases h4 : (env.recvRet i).nbytes ≤ 0 <;> simp [h1, h2, h4]
  · simp [h1]

theorem stepState_listener (env : IterEnv) (i : Int) (s : LoopState) :
    (stepState env i s).listener = s.listener := by
  unfold stepState
  split_ifs <;> first | rfl | exact addConn_listener _ _

theorem stepState_fdmax_ge (env : IterEnv) (i : Int) (s : LoopState) :
    s.fdmax ≤ (stepState env i s).fdmax := by
  unfold stepState
  split_ifs <;> first | exact le_refl _ | (rw [addConn_fdmax]; exact le_max_left _ _)

theorem stepState_fdmax_le (env : IterEnv) (i : Int) (s : LoopState) (B : Int)
    (h1 : s.fdmax ≤ B) (h2 : env.acceptRet ≤ B) : (stepState env i s).fdmax ≤ B := by
  unfold stepState
  split_ifs <;> first | exact h1 | (rw [addConn_fdmax]; exact max_le h1 h2)

theorem Reachable_stepState (env : IterEnv) (i : Int) {l : Int} {s : LoopState}
    (h : Reachable l s) : Reachable l (stepState env i s) := by
  unfold stepState
  split_ifs with h1 h2 h3 h4
  · exact h
  · exact Reachable.accept _ h h3
  · exact Reachable.evict i h h2
  · exact h
  · exact h

/-! ## The dispatch loop -/

/-- Induction along the dispatch loop: a property of the loop index and the pass state that
the body carries from `i` to `i + 1` holds, at some index past `fdmax`, when the loop
ends. -/
theorem dispatchLoop_induct (env : IterEnv) (P : Int → Pass → Prop)
    (hbody : ∀ i p, P i p → i ≤ p.st.fdmax → P (i + 1) (dispatchBody env i p)) :
    ∀ (fuel : Nat) (i : Int) (p q : Pass), P i p → dispatchLoop env fuel i p = some q →
      ∃ k, i ≤ k ∧ P k q ∧ q.st.fdmax < k := by
  intro fuel
  induction fuel with
  | zero =>
    intro i p q hp h
    unfold dispatchLoop at h
    split_ifs at h with hle
    cases h
    exact ⟨i, le_refl _, hp, by omega⟩
  | succ n ih =>
    intro i p q hp h
    unfold dispatchLoop at h
    split_ifs at h with hle
    · obtain ⟨k, hk1, hk2, hk3⟩ := ih (i + 1) _ q (hbody i p hp hle) h
      exact ⟨k, by omega, hk2, hk3⟩
    · cases h
      exact ⟨i, le_refl _, hp, by omega⟩

/-- With enough fuel the dispatch loop ends. -/
theorem dispatchLoop_total (env : IterEnv) (B : Int) (hB : env.acceptRet ≤ B) :
    ∀ (fuel : Nat) (i : Int) (p : Pass), p.st.fdmax ≤ B → (B + 1 - i).toNat ≤ fuel →
      ∃ q, dispatchLoop env fuel i p = some q := by
  intro fuel
  induction fuel with
  | zero =>
    intro i p hp hf
    unfold dispatchLoop
    rw [if_neg (by omega)]
    exact ⟨p, rfl⟩
  | succ n ih =>
    intro i p hp hf
    unfold dispatchLoop
    by_cases hle : i ≤ p.st.fdmax
    · rw [if_pos hle]
      apply ih
      · rw [dispatchBody_eq]
        exact stepState_fdmax_le env i p.st B hp hB
      · omega
    · rw [if_neg hle]
      exact ⟨p, rfl⟩

theorem dispatch_total (env : IterEnv) (s : LoopState) (p : Pass) (hp : p.st = s) :
    ∃ q, dispatchLoop env (dispatchFuel s env) s.fdmin p = some q := by
  apply dispatchLoop_total env (max s.fdmax env.acceptRet) (le_max_right _ _)
  · rw [hp]
    exact le_max_left _ _
  · exact le_refl _

/-! ## One iteration and the whole loop -/

/-- The two ways an iteration goes: `select` fails and the process exits, or the dispatch
loop ends and the heartbeat pass runs when nothing was found. -/
theorem iteration_cases (s : LoopState) (env : IterEnv) :
    (env.selectRet = -1 ∧
      iteration s env =
        some (Outcome.exited 4,
          [selectEvent s env, Event.log LogMsg.perrorSelect, Event.exit 4])) ∨
    (env.selectRet ≠ -1 ∧
      ∃ q, dispatchLoop env (dispatchFuel s env) s.fdmin
            { st := s, found := false, trace := [selectEvent s env] } = some q ∧
        iteration s env =
          some (Outcome.running q.st,
            q.trace ++ (if q.found = true then [] else heartbeatPass env q.st))) := by
  by_cases h : env.selectRet = -1
  · left
    refine ⟨h, ?_⟩
    simp [iteration, h, selectEvent]
  · right
    refine ⟨h, ?_⟩
    obtain ⟨q, hq⟩ := dispatch_total env s
      { st := s, found := false, trace := [selectEvent s env] } rfl
    refine ⟨q, hq, ?_⟩
    unfold selectEvent at hq
    simp only [iteration, h, if_false, hq, selectEvent]
    cases hf : q.found <;> simp

/-- Every iteration produces a result. -/
theorem iteration_total (s : LoopState) (env : IterEnv) : ∃ r, iteration s env = some r := by
  rcases iteration_cases s env with ⟨_, h⟩ | ⟨_, q, _, h⟩
  · exact ⟨_, h⟩
  · exact ⟨_, h⟩

/-- Induction along the iterations of the loop. -/
theorem runLoop_induct (P : Outcome → List Event → Prop)
    (hstep : ∀ s tr env o t, P (Outcome.running s) tr → iteration s env = some (o, t) →
      P o (tr ++ t)) :
    ∀ (envs : List IterEnv) (s : LoopState) (tr : List Event) (o : Outcome)
      (tr1 : List Event),
      P (Outcome.running s) tr → runLoop s tr envs = some (o, tr1) → P o tr1 := by
  intro envs
  induction envs with
  | nil =>
    intro s tr o tr1 hp h
    simp only [runLoop, Option.some.injEq, Prod.mk.injEq] at h
    obtain ⟨rfl, rfl⟩ := h
    exact hp
  | cons env rest ih =>
    intro s tr o tr1 hp h
    obtain ⟨⟨o1, t⟩, hit⟩ := iteration_total s env
    have h1 := hstep s tr env o1 t hp hit
    unfold runLoop at h
    rw [hit] at h
    cases o1 with
    | running s1 => exact ih s1 _ o tr1 h1 h
    | exited c =>
      simp only [Option.some.injEq, Prod.mk.injEq] at h
      obtain ⟨rfl, rfl⟩ := h
      exact h1

/-- The loop produces a result on every finite list of inputs. -/
theorem runLoop_total (envs : List IterEnv) :
    ∀ (s : LoopState) (tr : List Event), ∃ r, runLoop s tr envs = some r := by
  induction envs with
  | nil => intro s tr; exact ⟨_, rfl⟩
  | cons env rest ih =>
    intro s tr
    obtain ⟨⟨o1, t⟩, hit⟩ := iteration_total s env
    unfold runLoop
    rw [hit]
    cases o1 with
    | running s1 => exact ih s1 _
    | exited c => exact ⟨_, rfl⟩

theorem dispatchLoop_reachable (env : IterEnv) (l : Int) (fuel : Nat) (i : Int) (p q : Pass)
    (hp : Reachable l p.st) (h : dispatchLoop env fuel i p = some q) : Reachable l q.st := by
  obtain ⟨k, _, hk, _⟩ := dispatchLoop_induct env (fun _ p => Reachable l p.st)
    (fun i p hp _ => by rw [dispatchBody_eq]; exact Reachable_stepState env i hp) fuel i p q hp h
  exact hk

theorem iteration_reachable {l : Int} {s s1 : LoopState} {env : IterEnv} {t : List Event}
    (hs : Reachable l s) (h : iteration s env = some (Outcome.running s1, t)) :
    Reachable l s1 := by
  rcases iteration_cases s env with ⟨_, h1⟩ | ⟨_, q, hq, h1⟩
  · rw [h1] at h
    cases h
  · rw [h1] at h
    simp only [Option.some.injEq, Prod.mk.injEq, Outcome.running.injEq] at h
    rw [← h.1]
    exact dispatchLoop_reachable env l _ _ _ q hs hq

theorem sendsOf_relayPass_recipients (env : IterEnv) (s : LoopState) (i : Int)
    (pl : List Nat) :
    (sendsOf (relayPass env s i pl)).map (fun x => x.2.1) = relayTargets s i := by
  rw [sendsOf_relayPass, List.map_map]
  exact List.map_id _

theorem sendsOf_heartbeatPass_recipients (env : IterEnv) (s : LoopState) :
    (sendsOf (heartbeatPass env s)).map (fun x => x.2.1) = heartbeatTargets s := by
  rw [sendsOf_heartbeatPass, List.map_map]
  exact List.map_id _

/-! ## C1: relay fan-out -/

/-- C1. Relay fan-out: in a reachable loop state, when the dispatch loop reaches a ready
handle `i` other than the listener whose `recv` returns `N` bytes with `1 ≤ N ≤ 256`, the
loop variables stay as they are, the body issues the `recv` followed by the relay pass, and
the relay pass sends exactly once to every handle of `master` other than `i` and the
listener; every send it makes comes from the relay site, goes to such a handle, and carries
exactly the `N` bytes read. -/
theorem relay_fanout (l : Int) (env : IterEnv) (p : Pass) (i : Int) (N : Nat)
    (hs : Reachable l p.st) (hready : i ∈ env.read_fds) (hi : i ≠ p.st.listener)
    (hN : (env.recvRet i).nbytes = (N : Int)) (h1 : 1 ≤ N) (h256 : N ≤ bufSize)
    (hbuf : (env.recvRet i).buf.length = bufSize) :
    (dispatchBody env i p).st = p.st ∧
    (dispatchBody env i p).trace =
      p.trace ++ Event.recv i bufSize N ::
        relayPass env p.st i ((env.recvRet i).buf.take N) ∧
    (∀ j, j ∈ p.st.master → j ≠ i → j ≠ p.st.listener →
      ((sendsOf (relayPass env p.st i ((env.recvRet i).buf.take N))).map
        (fun x => x.2.1)).count j = 1) ∧
    (∀ x ∈ sendsOf (relayPass env p.st i ((env.recvRet i).buf.take N)),
      x.1 = SendSite.relay ∧ x.2.2 = (env.recvRet i).buf.take N ∧ x.2.2.length = N ∧
      x.2.1 ∈ p.st.master ∧ x.2.1 ≠ i ∧ x.2.1 ≠ p.st.listener) := by
  have hpos : ¬ (env.recvRet i).nbytes ≤ 0 := by omega
  have hnat : (env.recvRet i).nbytes.toNat = N := by omega
  refine ⟨?_, ?_, ?_, ?_⟩
  · rw [dispatchBody_eq]
    simp [stepState, hready, hi, hpos]
  · have hN0 : N ≠ 0 := by omega
    rw [dispatchBody_eq]
    simp [stepEvents, hready, hi, hN, hN0]
  · intro j hj hji hjl
    rw [sendsOf_relayPass_recipients]
    apply List.count_eq_one_of_mem (relayTargets_nodup _ _)
    exact mem_relayTargets.mpr ⟨hs.inv.2.2 j hj, hj, hjl, hji⟩
  · intro x hx
    rw [sendsOf_relayPass, List.mem_map] at hx
    obtain ⟨j, hj, rfl⟩ := hx
    obtain ⟨_, h2, h3, h4⟩ := mem_relayTargets.mp hj
    refine ⟨rfl, rfl, ?_, h2, h4, h3⟩
    simp only [List.length_take]
    omega

/-! ## C2: eviction on close or read error -/

theorem relayPass_not_to_nonmember (env : IterEnv) (s : LoopState) (r : Int) (pl : List Nat)
    (i : Int) (hi : i ∉ s.master) : ∀ x ∈ sendsOf (relayPass env s r pl), x.2.1 ≠ i := by
  intro x hx
  rw [sendsOf_relayPass, List.mem_map] at hx
  obtain ⟨j, hj, rfl⟩ := hx
  intro e
  exact hi (e ▸ (mem_relayTargets.mp hj).2.1)

theorem heartbeatPass_not_to_nonmember (env : IterEnv) (s : LoopState) (i : Int)
    (hi : i ∉ s.master) : ∀ x ∈ sendsOf (heartbeatPass env s), x.2.1 ≠ i := by
  intro x hx
  rw [sendsOf_heartbeatPass, List.mem_map] at hx
  obtain ⟨j, hj, rfl⟩ := hx
  intro e
  exact hi (e ▸ (mem_heartbeatTargets.mp hj).2.1)

/-- C2. Eviction on close or read error: when the dispatch loop reaches a ready handle `i`
other than the listener whose `recv` returns a value `≤ 0`, the body issues exactly the
`recv`, one log line and `close(i)` (so no send), removes `i` from `master`, leaves every
other member (the listener included) a member and the bounds as they were; and in any state
in which `i` is not in `master`, neither a relay pass nor a heartbeat pass sends to `i`. -/
theorem evict_on_close_or_error (env : IterEnv) (p : Pass) (i : Int)
    (hready : i ∈ env.read_fds) (hi : i ≠ p.st.listener)
    (hr : (env.recvRet i).nbytes ≤ 0) :
    (dispatchBody env i p).trace =
      p.trace ++ [Event.recv i bufSize (env.recvRet i).nbytes,
        Event.log (if (env.recvRet i).nbytes = 0 then LogMsg.hungUp else LogMsg.recvError),
        Event.close i] ∧
    sendsOf (dispatchBody env i p).trace = sendsOf p.trace ∧
    (dispatchBody env i p).st.master = p.st.master.erase i ∧
    i ∉ (dispatchBody env i p).st.master ∧
    (∀ h ∈ p.st.master, h ≠ i → h ∈ (dispatchBody env i p).st.master) ∧
    (p.st.listener ∈ p.st.master →
      (dispatchBody env i p).st.listener ∈ (dispatchBody env i p).st.master) ∧
    (∀ (env1 : IterEnv) (s : LoopState) (r : Int) (pl : List Nat), i ∉ s.master →
      (∀ x ∈ sendsOf (relayPass env1 s r pl), x.2.1 ≠ i) ∧
      (∀ x ∈ sendsOf (heartbeatPass env1 s), x.2.1 ≠ i)) := by
  have hst : (dispatchBody env i p).st = removeConn p.st i := by
    rw [dispatchBody_eq]
    simp [stepState, hready, hi, hr]
  have htr : (dispatchBody env i p).trace =
      p.trace ++ [Event.recv i bufSize (env.recvRet i).nbytes,
        Event.log (if (env.recvRet i).nbytes = 0 then LogMsg.hungUp else LogMsg.recvError),
        Event.close i] := by
    rw [dispatchBody_eq]
    simp [stepEvents, hready, hi, hr]
  refine ⟨htr, ?_, ?_, ?_, ?_, ?_, ?_⟩
  · rw [htr, sendsOf_append]
    simp [sendsOf]
  · rw [hst]
    rfl
  · rw [hst]
    exact Finset.not_mem_erase i _
  · intro h hh hne
    rw [hst]
    exact Finset.mem_erase.mpr ⟨hne, hh⟩
  · intro hl
    rw [hst]
    exact Finset.mem_erase.mpr ⟨fun e => hi e.symm, hl⟩
  · intro env1 s r pl hnot
    exact ⟨relayPass_not_to_nonmember env1 s r pl i hnot,
      heartbeatPass_not_to_nonmember env1 s i hnot⟩

/-! ## C3: send failures are isolated -/

theorem sendsOf_stepEvents_withSendResults (env : IterEnv) (f : Int → Int → Int)
    (g : Int → Int) (i : Int) (s : LoopState) :
    sendsOf (stepEvents (withSendResults env f g) i s) = sendsOf (stepEvents env i s) := by
  unfold stepEvents
  by_cases h1 : i ∈ env.read_fds
  · by_cases h2 : i = s.listener
    · simp [withSendResults, h1, h2]
    · by_cases h4 : (env.recvRet i).nbytes ≤ 0
      · simp [withSendResults, h1, h2, h4]
      · simp only [withSendResults, h1, h2, h4, if_true, if_false, sendsOf]
        rw [sendsOf_relayPass, sendsOf_relayPass]
  · simp [withSendResults, h1]

theorem dispatchLoop_withSendResults (env : IterEnv) (f : Int → Int → Int) (g : Int → Int) :
    ∀ (fuel : Nat) (i : Int) (p p1 : Pass), p1.st = p.st → p1.found = p.found →
      sendsOf p1.trace = sendsOf p.trace →
      (dispatchLoop (withSendResults env f g) fuel i p1).map
          (fun q => (q.st, q.found, sendsOf q.trace)) =
        (dispatchLoop env fuel i p).map (fun q => (q.st, q.found, sendsOf q.trace)) := by
  intro fuel
  induction fuel with
  | zero =>
    intro i p p1 h1 h2 h3
    unfold dispatchLoop
    rw [h1]
    split_ifs
    · rfl
    · simp [h1, h2, h3]
  | succ n ih =>
    intro i p p1 h1 h2 h3
    unfold dispatchLoop
    rw [h1]
    split_ifs
    · apply ih
      · rw [dispatchBody_eq, dispatchBody_eq, h1]
        rfl
      · rw [dispatchBody_eq, dispatchBody_eq, h2]
        rfl
      · rw [dispatchBody_eq, dispatchBody_eq]
        simp only [sendsOf_append, h3, h1, sendsOf_stepEvents_withSendResults]
    · simp [h1, h2, h3]

theorem dispatchLoop_nothing_ready (env : IterEnv) (h0 : env.read_fds = ∅) (fuel : Nat)
    (i : Int) (p q : Pass) (h : dispatchLoop env fuel i p = some q) : q = p := by
  obtain ⟨k, _, hk, _⟩ := dispatchLoop_induct env (fun _ p1 => p1 = p)
    (fun i p1 hp _ => by
      subst hp
      simp [dispatchBody, h0]) fuel i p q rfl h
  exact hk

/-- With an empty read set the iteration is the `select` followed by the heartbeat pass, and
the loop variables stay as they are. -/
theorem iteration_nothing_ready (s : LoopState) (env : IterEnv) (hsel : env.selectRet ≠ -1)
    (h0 : env.read_fds = ∅) :
    iteration s env = some (Outcome.running s, selectEvent s env :: heartbeatPass env s) := by
  rcases iteration_cases s env with ⟨h, _⟩ | ⟨_, q, hq, h1⟩
  · exact absurd h hsel
  · have := dispatchLoop_nothing_ready env h0 _ _ _ q hq
    subst this
    rw [h1]
    simp

theorem iteration_withSendResults (s : LoopState) (env : IterEnv) (f : Int → Int → Int)
    (g : Int → Int) :
    (iteration s (withSendResults env f g)).map (fun r => (r.1, sendsOf r.2)) =
      (iteration s env).map (fun r => (r.1, sendsOf r.2)) := by
  rcases iteration_cases s env with ⟨h, h1⟩ | ⟨h, q, hq, h1⟩
  · rcases iteration_cases s (withSendResults env f g) with ⟨_, h2⟩ | ⟨h3, _⟩
    · rw [h1, h2]
      rfl
    · exact absurd h h3
  · rcases iteration_cases s (withSendResults env f g) with ⟨h3, _⟩ | ⟨_, q1, hq1, h2⟩
    · exact absurd h3 h
    · have key := dispatchLoop_withSendResults env f g (dispatchFuel s env) s.fdmin
        { st := s, found := false, trace := [selectEvent s env] }
        { st := s, found := false, trace := [selectEvent s (withSendResults env f g)] }
        rfl rfl rfl
      have hq1' : dispatchLoop (withSendResults env f g) (dispatchFuel s env) s.fdmin
          { st := s, found := false, trace := [selectEvent s (withSendResults env f g)] } =
          some q1 := hq1
      rw [hq, hq1'] at key
      simp only [Option.map_some', Option.some.injEq, Prod.mk.injEq] at key
      obtain ⟨k1, k2, k3⟩ := key
      rw [h1, h2]
      simp only [Option.map_some', Option.some.injEq, Prod.mk.injEq, sendsOf_append, k1, k2, k3,
        true_and]
      cases q.found
      · simp only [Bool.false_eq_true, if_false]
        rw [sendsOf_heartbeatPass, sendsOf_heartbeatPass]
      · simp

/-- C3. Send-failure isolation: replacing the results of all sends of an iteration by any
others (`f` for the relay sends, `g` for the heartbeat sends) changes neither the outcome of
the iteration (the loop variables `master`, `fdmin`, `fdmax` afterwards) nor the sequence of
send attempts (site, recipient, payload); the same holds for a single relay pass and a single
heartbeat pass, neither of which changes the loop variables; and in a reachable state every
handle of `master` other than the listener (and the reader) gets its send attempt whatever
the sends return. -/
theorem send_failure_isolation (l : Int) (s : LoopState) (env : IterEnv)
    (f : Int → Int → Int) (g : Int → Int) (hs : Reachable l s) :
    (iteration s (withSendResults env f g)).map (fun r => (r.1, sendsOf r.2)) =
      (iteration s env).map (fun r => (r.1, sendsOf r.2)) ∧
    (∀ i pl, sendsOf (relayPass (withSendResults env f g) s i pl) =
      sendsOf (relayPass env s i pl)) ∧
    sendsOf (heartbeatPass (withSendResults env f g) s) = sendsOf (heartbeatPass env s) ∧
    (∀ i (p : Pass), i ∈ env.read_fds → i ≠ p.st.listener → 0 < (env.recvRet i).nbytes →
      (dispatchBody (withSendResults env f g) i p).st = p.st) ∧
    (env.selectRet ≠ -1 → env.read_fds = ∅ →
      (iteration s (withSendResults env f g)).map (fun r => r.1) =
        some (Outcome.running s)) ∧
    (∀ i pl j, j ∈ s.master → j ≠ s.listener → j ≠ i →
      (SendSite.relay, j, pl) ∈ sendsOf (relayPass (withSendResults env f g) s i pl)) ∧
    (∀ j, j ∈ s.master → j ≠ s.listener →
      (SendSite.heartbeat, j, heartbeatMsg) ∈
        sendsOf (heartbeatPass (withSendResults env f g) s)) := by
  refine ⟨iteration_withSendResults s env f g, ?_, ?_, ?_, ?_, ?_, ?_⟩
  · intro i pl
    rw [sendsOf_relayPass, sendsOf_relayPass]
  · rw [sendsOf_heartbeatPass, sendsOf_heartbeatPass]
  · intro i p h1 h2 h3
    have h4 : ¬ (env.recvRet i).nbytes ≤ 0 := by omega
    rw [dispatchBody_eq]
    simp [stepState, withSendResults, h1, h2, h4]
  · intro h1 h2
    rw [iteration_nothing_ready s (withSendResults env f g) h1 h2]
    rfl
  · intro i pl j h1 h2 h3
    rw [sendsOf_relayPass, List.mem_map]
    exact ⟨j, mem_relayTargets.mpr ⟨hs.inv.2.2 j h1, h1, h2, h3⟩, rfl⟩
  · intro j h1 h2
    rw [sendsOf_heartbeatPass, List.mem_map]
    exact ⟨j, mem_heartbeatTargets.mpr ⟨hs.inv.2.2 j h1, h1, h2⟩, rfl⟩

/-! ## C4: the heartbeat -/

theorem sendsOf_stepEvents_site (env : IterEnv) (i : Int) (s : LoopState) :
    ∀ x ∈ sendsOf (stepEvents env i s), x.1 = SendSite.relay := by
  intro x hx
  unfold stepEvents at hx
  by_cases h1 : i ∈ env.read_fds
  · by_cases h2 : i = s.listener
    · subst h2
      by_cases h3 : env.acceptRet = -1
      · simp [h1, h3, sendsOf] at hx
      · simp [h1, h3, sendsOf, keepaliveOpts] at hx
    · by_cases h4 : (env.recvRet i).nbytes ≤ 0
      · simp [h1, h2, h4, sendsOf] at hx
      · simp only [h1, h2, h4, if_true, if_false, sendsOf] at hx
        rw [sendsOf_relayPass, List.mem_map] at hx
        obtain ⟨j, _, rfl⟩ := hx
        rfl
  · simp [h1, sendsOf] at hx

theorem heartbeatPass_events (env : IterEnv) (s : LoopState) :
    ∀ e ∈ heartbeatPass env s,
      (∃ j r, e = Event.send SendSite.heartbeat j heartbeatMsg r) ∨
        e = Event.log LogMsg.sendError := by
  intro e he
  unfold heartbeatPass at he
  rw [List.mem_flatMap] at he
  obtain ⟨j, _, hj⟩ := he
  unfold heartbeatSend at hj
  split_ifs at hj <;> simp at hj
  · rcases hj with rfl | rfl
    · exact Or.inl ⟨j, _, rfl⟩
    · exact Or.inr rfl
  · exact Or.inl ⟨j, _, hj⟩

/-- When some descriptor between the bounds is ready, the dispatch loop sets `found` and no
send of the pass comes from the heartbeat site. -/
theorem dispatchLoop_found (env : IterEnv) (s : LoopState) (d : Int) (hd : d ∈ env.read_fds)
    (h1 : s.fdmin ≤ d) (h2 : d ≤ s.fdmax) (q : Pass)
    (h : dispatchLoop env (dispatchFuel s env) s.fdmin
      { st := s, found := false, trace := [selectEvent s env] } = some q) :
    q.found = true ∧ ∀ x ∈ sendsOf q.trace, x.1 = SendSite.relay := by
  obtain ⟨k, _, ⟨hk1, hk2, hk3⟩, hk4⟩ := dispatchLoop_induct env
    (fun i p => (d < i → p.found = true) ∧ s.fdmax ≤ p.st.fdmax ∧
      ∀ x ∈ sendsOf p.trace, x.1 = SendSite.relay)
    (fun i p hp _ => by
      obtain ⟨a, b, c⟩ := hp
      rw [dispatchBody_eq]
      refine ⟨?_, ?_, ?_⟩
      · intro hlt
        by_cases hdi : d < i
        · simp [a hdi]
        · have : d = i := by omega
          subst this
          simp [hd]
      · exact le_trans b (stepState_fdmax_ge env i p.st)
      · intro x hx
        simp only [sendsOf_append, List.mem_append] at hx
        rcases hx with hx | hx
        · exact c x hx
        · exact sendsOf_stepEvents_site env i p.st x hx)
    _ _ _ q ⟨fun hlt => absurd hlt (by omega), le_refl _, by simp [sendsOf, selectEvent]⟩ h
  exact ⟨hk1 (by omega), hk3⟩

/-- C4. Heartbeat: in an iteration from a reachable state in which `select` returns normally,
if the read set is empty then the iteration consists of the `select` followed by the heartbeat
pass and leaves the loop variables as they are; the pass is made only of heartbeat sends of
the 32-byte literal (and the log line of a failed send), sends exactly once to every handle
of `master` other than the listener, and to no other handle.  If instead some descriptor of
`master` is ready, the iteration makes no send from the heartbeat site. -/
theorem heartbeat_on_timeout (l : Int) (s : LoopState) (env : IterEnv) (hs : Reachable l s)
    (hsel : env.selectRet ≠ -1) :
    (env.read_fds = ∅ →
      iteration s env =
        some (Outcome.running s,
          Event.select (s.fdmax + 1) s.master env.selectRet :: heartbeatPass env s) ∧
      (∀ e ∈ heartbeatPass env s,
        (∃ j r, e = Event.send SendSite.heartbeat j heartbeatMsg r) ∨
          e = Event.log LogMsg.sendError) ∧
      (∀ j, j ∈ s.master → j ≠ s.listener →
        ((sendsOf (heartbeatPass env s)).map (fun x => x.2.1)).count j = 1) ∧
      (∀ x ∈ sendsOf (heartbeatPass env s),
        x.1 = SendSite.heartbeat ∧ x.2.2 = heartbeatMsg ∧ x.2.1 ∈ s.master ∧
          x.2.1 ≠ s.listener) ∧
      heartbeatMsg = "hello??? are you still there???\n".toList.map Char.toNat ∧
      heartbeatMsg.length = 32) ∧
    ((∃ d ∈ env.read_fds, d ∈ s.master) →
      ∃ s1 tr, iteration s env = some (Outcome.running s1, tr) ∧
        ∀ x ∈ sendsOf tr, x.1 ≠ SendSite.heartbeat) := by
  constructor
  · intro h0
    refine ⟨iteration_nothing_ready s env hsel h0, heartbeatPass_events env s, ?_, ?_, rfl,
      by decide⟩
    · intro j hj hjl
      rw [sendsOf_heartbeatPass_recipients]
      apply List.count_eq_one_of_mem (heartbeatTargets_nodup _)
      exact mem_heartbeatTargets.mpr ⟨hs.inv.2.2 j hj, hj, hjl⟩
    · intro x hx
      rw [sendsOf_heartbeatPass, List.mem_map] at hx
      obtain ⟨j, hj, rfl⟩ := hx
      obtain ⟨_, h2, h3⟩ := mem_heartbeatTargets.mp hj
      exact ⟨rfl, rfl, h2, h3⟩
  · rintro ⟨d, hd, hdm⟩
    rcases iteration_cases s env with ⟨h, _⟩ | ⟨_, q, hq, h1⟩
    · exact absurd h hsel
    · obtain ⟨hb1, hb2⟩ := hs.inv.2.2 d hdm
      obtain ⟨hf, hsends⟩ := dispatchLoop_found env s d hd hb1 hb2 q hq
      refine ⟨q.st, _, h1, ?_⟩
      intro x hx
      simp only [hf, if_true, List.append_nil] at hx
      rw [hsends x hx]
      decide

/-! ## C5: the listener is left alone -/

theorem relayPass_events (env : IterEnv) (s : LoopState) (i : Int) (pl : List Nat) :
    ∀ e ∈ relayPass env s i pl,
      (∃ j r, e = Event.send SendSite.relay j pl r ∧ j ∈ s.master ∧ j ≠ s.listener ∧ j ≠ i) ∨
        e = Event.log LogMsg.sendError := by
  intro e he
  unfold relayPass at he
  rw [List.mem_flatMap] at he
  obtain ⟨j, _, hj⟩ := he
  unfold relaySend at hj
  split_ifs at hj with h1 h2 h3 <;> simp at hj
  · rcases hj with rfl | rfl
    · exact Or.inl ⟨j, _, rfl, h1, h2.1, h2.2⟩
    · exact Or.inr rfl
  · exact Or.inl ⟨j, _, hj, h1, h2.1, h2.2⟩

theorem heartbeatPass_targets (env : IterEnv) (s : LoopState) :
    ∀ e ∈ heartbeatPass env s,
      (∃ j r, e = Event.send SendSite.heartbeat j heartbeatMsg r ∧ j ∈ s.master ∧
        j ≠ s.listener) ∨ e = Event.log LogMsg.sendError := by
  intro e he
  unfold heartbeatPass at he
  rw [List.mem_flatMap] at he
  obtain ⟨j, _, hj⟩ := he
  unfold heartbeatSend at hj
  split_ifs at hj with h1 h2 h3 <;> simp at hj
  · rcases hj with rfl | rfl
    · exact Or.inl ⟨j, _, rfl, h1, h2⟩
    · exact Or.inr rfl
  · exact Or.inl ⟨j, _, hj, h1, h2⟩

theorem stepEvents_touches (env : IterEnv) (i : Int) (s : LoopState) :
    ∀ e ∈ stepEvents env i s, e.touches s.listener = false := by
  intro e he
  unfold stepEvents at he
  by_cases h1 : i ∈ env.read_fds
  · by_cases h2 : i = s.listener
    · subst h2
      by_cases h3 : env.acceptRet = -1
      · simp [h1, h3] at he
        rcases he with rfl | rfl <;> rfl
      · simp [h1, h3, keepaliveOpts] at he
        rcases he with rfl | rfl | rfl | rfl | rfl | rfl <;> rfl
    · by_cases h4 : (env.recvRet i).nbytes ≤ 0
      · simp only [h1, h2, h4, if_true, if_false, List.mem_cons, List.mem_singleton,
          List.not_mem_nil, or_false] at he
        rcases he with rfl | rfl | rfl
        · simpa [Event.touches] using h2
        · rfl
        · simpa [Event.touches] using h2
      · simp only [h1, h2, h4, if_true, if_false, List.mem_cons] at he
        rcases he with rfl | he
        · simpa [Event.touches] using h2
        · rcases relayPass_events env s i _ e he with ⟨j, r, rfl, _, hj, _⟩ | rfl
          · simpa [Event.touches] using hj
          · rfl
  · simp [h1] at he

theorem heartbeatPass_touches (env : IterEnv) (s : LoopState) :
    ∀ e ∈ heartbeatPass env s, e.touches s.listener = false := by
  intro e he
  rcases heartbeatPass_targets env s e he with ⟨j, r, rfl, _, hj⟩ | rfl
  · simpa [Event.touches] using hj
  · rfl

/-- Where the calls of one iteration come from: the `select`, the exit on its failure, the
body of the dispatch loop at some index, or the heartbeat pass, in states with the same
listener. -/
theorem iteration_events {s : LoopState} {env : IterEnv} {o : Outcome} {t : List Event}
    (h : iteration s env = some (o, t)) :
    ∀ e ∈ t, e = selectEvent s env ∨ e = Event.log LogMsg.perrorSelect ∨ e = Event.exit 4 ∨
      (∃ i s1, s1.listener = s.listener ∧ e ∈ stepEvents env i s1) ∨
      (∃ s1, s1.listener = s.listener ∧ e ∈ heartbeatPass env s1) := by
  rcases iteration_cases s env with ⟨_, h1⟩ | ⟨_, q, hq, h1⟩
  · rw [h1] at h
    simp only [Option.some.injEq, Prod.mk.injEq] at h
    intro e he
    rw [← h.2] at he
    simp only [List.mem_cons, List.mem_singleton, List.not_mem_nil, or_false] at he
    rcases he with rfl | rfl | rfl
    · exact Or.inl rfl
    · exact Or.inr (Or.inl rfl)
    · exact Or.inr (Or.inr (Or.inl rfl))
  · obtain ⟨k, _, ⟨hk1, hk2⟩, _⟩ := dispatchLoop_induct env
      (fun _ p => p.st.listener = s.listener ∧
        ∀ e ∈ p.trace, e = selectEvent s env ∨
          ∃ i s1, s1.listener = s.listener ∧ e ∈ stepEvents env i s1)
      (fun i p hp _ => by
        obtain ⟨a, b⟩ := hp
        rw [dispatchBody_eq]
        refine ⟨by rw [stepState_listener]; exact a, ?_⟩
        intro e he
        simp only [List.mem_append] at he
        rcases he with he | he
        · exact b e he
        · exact Or.inr ⟨i, p.st, a, he⟩)
      _ _ _ q ⟨rfl, fun e he => Or.inl (by simpa using he)⟩ hq
    rw [h1] at h
    simp only [Option.some.injEq, Prod.mk.injEq] at h
    intro e he
    rw [← h.2, List.mem_append] at he
    rcases he with he | he
    · rcases hk2 e he with rfl | hx
      · exact Or.inl rfl
      · exact Or.inr (Or.inr (Or.inr (Or.inl hx)))
    · split_ifs at he
      · simp at he
      · exact Or.inr (Or.inr (Or.inr (Or.inr ⟨q.st, hk1, he⟩)))

theorem iteration_touches {l : Int} {s : LoopState} {env : IterEnv} {o : Outcome}
    {t : List Event} (hl : s.listener = l) (h : iteration s env = some (o, t)) :
    ∀ e ∈ t, e.touches l = false := by
  intro e he
  rcases iteration_events h e he with rfl | rfl | rfl | ⟨i, s1, h1, h2⟩ | ⟨s1, h1, h2⟩
  · rfl
  · rfl
  · rfl
  · rw [← hl, ← h1]
    exact stepEvents_touches env i s1 e h2
  · rw [← hl, ← h1]
    exact heartbeatPass_touches env s1 e h2

/-- Along the loop from a reachable state the states stay reachable and no call touches
the listener. -/
theorem runLoop_listener (l : Int) (envs : List IterEnv) (s : LoopState) (tr : List Event)
    (o : Outcome) (tr1 : List Event) (hs : Reachable l s)
    (htr : ∀ e ∈ tr, e.touches l = false) (h : runLoop s tr envs = some (o, tr1)) :
    (∀ e ∈ tr1, e.touches l = false) ∧ ∀ s1, o = Outcome.running s1 → Reachable l s1 := by
  refine runLoop_induct
    (fun o tr => (∀ e ∈ tr, e.touches l = false) ∧
      ∀ s1, o = Outcome.running s1 → Reachable l s1)
    ?_ envs s tr o tr1 ⟨htr, fun s1 h1 => by cases h1; exact hs⟩ h
  intro s0 tr0 env o0 t hp hit
  have hr := hp.2 s0 rfl
  refine ⟨?_, ?_⟩
  · intro e he
    rw [List.mem_append] at he
    rcases he with he | he
    · exact hp.1 e he
    · exact iteration_touches hr.listener_eq hit e he
  · intro s1 h1
    subst h1
    exact iteration_reachable hr hit

/-- C5. Listener isolation: from the initial loop state (`master = {listener}`), whatever
the inputs of any number of iterations (read errors, closes, send failures, and any handle
returned by `accept`), the loop produces a result, no call it makes is a `send`, a `recv` or
a `close` on the listener handle, and as long as the loop is running the listener is a member
of `master`. -/
theorem listener_isolation (listener : Int) (envs : List IterEnv) :
    ∃ o tr, runLoop (initState listener) [] envs = some (o, tr) ∧
      (∀ e ∈ tr, e.touches listener = false) ∧
      ∀ s, o = Outcome.running s → s.listener = listener ∧ listener ∈ s.master := by
  obtain ⟨⟨o, tr⟩, h⟩ := runLoop_total envs (initState listener) []
  obtain ⟨h1, h2⟩ := runLoop_listener listener envs (initState listener) [] o tr
    Reachable.init (by simp) h
  refine ⟨o, tr, h, h1, ?_⟩
  intro s hs
  have hr := h2 s hs
  refine ⟨hr.listener_eq, ?_⟩
  have := hr.inv.1
  rwa [hr.listener_eq] at this

/-! ## C6: the accept path -/

/-- C6. Accept path: in a reachable state, when the dispatch loop reaches the ready listener,
(a) if `accept` returns `newfd ≠ -1`, the body adds `newfd` to `master`, keeps every previous
member, and issues the `accept` followed by the four options `SO_KEEPALIVE = 1`,
`TCP_KEEPIDLE = 5`, `TCP_KEEPINTVL = 5`, `TCP_KEEPCNT = 3` on `newfd`; (b) if `accept` returns
`-1`, the loop variables are unchanged, only the `accept` and a log line are issued (no socket
option), the dispatch loop goes on with the next index, and the iteration ends running (not
exited) whenever `select` did not fail. -/
theorem accept_path (l : Int) (env : IterEnv) (p : Pass) (fuel : Nat)
    (hs : Reachable l p.st) (hready : p.st.listener ∈ env.read_fds) :
    (env.acceptRet ≠ -1 →
      (dispatchBody env p.st.listener p).st.master = insert env.acceptRet p.st.master ∧
      env.acceptRet ∈ (dispatchBody env p.st.listener p).st.master ∧
      (∀ h ∈ p.st.master, h ∈ (dispatchBody env p.st.listener p).st.master) ∧
      (dispatchBody env p.st.listener p).trace =
        p.trace ++ [Event.accept p.st.listener env.acceptRet,
          Event.setsockopt env.acceptRet SockOpt.SO_KEEPALIVE 1,
          Event.setsockopt env.acceptRet SockOpt.TCP_KEEPIDLE 5,
          Event.setsockopt env.acceptRet SockOpt.TCP_KEEPINTVL 5,
          Event.setsockopt env.acceptRet SockOpt.TCP_KEEPCNT 3,
          Event.log LogMsg.newConnection]) ∧
    (env.acceptRet = -1 →
      (dispatchBody env p.st.listener p).st = p.st ∧
      (dispatchBody env p.st.listener p).trace =
        p.trace ++ [Event.accept p.st.listener (-1), Event.log LogMsg.perrorAccept] ∧
      dispatchLoop env (fuel + 1) p.st.listener p =
        dispatchLoop env fuel (p.st.listener + 1)
          { st := p.st, found := true,
            trace := p.trace ++ [Event.accept p.st.listener (-1),
              Event.log LogMsg.perrorAccept] } ∧
      (env.selectRet ≠ -1 → ∃ s1 tr, iteration p.st env = some (Outcome.running s1, tr))) := by
  constructor
  · intro hne
    have hst : (dispatchBody env p.st.listener p).st = addConn p.st env.acceptRet := by
      rw [dispatchBody_eq]
      simp [stepState, hready, hne]
    refine ⟨?_, ?_, ?_, ?_⟩
    · rw [hst, addConn_master]
    · rw [hst, addConn_master]
      exact Finset.mem_insert_self _ _
    · intro h hh
      rw [hst, addConn_master]
      exact Finset.mem_insert_of_mem hh
    · rw [dispatchBody_eq]
      simp [stepEvents, hready, hne, keepaliveOpts, keepAlive, keepIdle, keepInterval,
        keepCount, KEEPALIVE_IDLE, KEEPALIVE_INTERVAL, KEEPALIVE_COUNT]
  · intro he
    have hb : dispatchBody env p.st.listener p =
        { st := p.st, found := true,
          trace := p.trace ++ [Event.accept p.st.listener (-1),
            Event.log LogMsg.perrorAccept] } := by
      rw [dispatchBody_eq]
      simp [stepState, stepEvents, hready, he]
    refine ⟨by rw [hb], by rw [hb], ?_, ?_⟩
    · have hle : p.st.listener ≤ p.st.fdmax := (hs.inv.2.2 _ hs.inv.1).2
      rw [← hb]
      simp [dispatchLoop, hle]
    · intro hsel
      rcases iteration_cases p.st env with ⟨h, _⟩ | ⟨_, q, _, h1⟩
      · exact absurd h hsel
      · exact ⟨_, _, h1⟩

/-! ## C7: fatal errors -/

theorem startup_service_free (checkAborts : Bool) (senv : StartupEnv) :
    ∀ e ∈ (startup checkAborts senv).2, e.isService = false := by
  have h : (startup checkAborts senv).2.all (fun e => !e.isService) = true := by
    unfold startup
    split_ifs <;> simp [cleanUp, Event.isService]
  intro e he
  have := List.all_eq_true.mp h e he
  simpa using this

theorem startup_cases (checkAborts : Bool) (senv : StartupEnv) :
    (senv.bindRet ≠ 0 ∨ senv.listenRet ≠ 0 ∨ senv.mdnsInitRet ≠ 0 →
      ∃ tr, startup checkAborts senv =
          (StartupEnd.taskDeleted, tr ++ [Event.close senv.socketRet, Event.vTaskDelete]) ∧
        Event.close senv.socketRet ∉ tr) ∧
    (senv.bindRet = 0 → senv.listenRet = 0 → senv.mdnsInitRet = 0 →
      senv.mdnsHostnameSetRet ≠ 0 → checkAborts = true →
      (startup checkAborts senv).1 = StartupEnd.aborted ∧
        Event.close senv.socketRet ∉ (startup checkAborts senv).2) := by
  constructor
  · intro h
    unfold startup
    by_cases h1 : senv.bindRet = 0
    · by_cases h2 : senv.listenRet = 0
      · have h3 : senv.mdnsInitRet ≠ 0 := by
          rcases h with h | h | h
          · exact absurd h1 h
          · exact absurd h2 h
          · exact h
        exact ⟨[Event.getaddrinfo, Event.socket senv.socketRet, Event.bind senv.socketRet 0,
          Event.freeaddrinfo, Event.listen senv.socketRet backlog 0,
          Event.log LogMsg.socketListening, Event.mdns_init senv.mdnsInitRet,
          Event.log LogMsg.mdnsInitFailed], by simp [h1, h2, h3, cleanUp], by simp⟩
      · exact ⟨[Event.getaddrinfo, Event.socket senv.socketRet, Event.bind senv.socketRet 0,
          Event.freeaddrinfo, Event.listen senv.socketRet backlog senv.listenRet,
          Event.log LogMsg.listenFailed], by simp [h1, h2, cleanUp], by simp⟩
    · exact ⟨[Event.getaddrinfo, Event.socket senv.socketRet,
        Event.bind senv.socketRet senv.bindRet, Event.log LogMsg.bindFailed,
        Event.log LogMsg.ipproto], by simp [h1, cleanUp], by simp⟩
  · intro h1 h2 h3 h4 h5
    unfold startup
    simp [h1, h2, h3, h4, h5]

/-- C7, as stated, fails.  With every start-up call succeeding and listener 3, a `select`
that returns -1 ends the task through `exit(4)` and the trace holds no `close(3)`; and when
`mdns_hostname_set` fails (and the error check aborts) the task ends in `abort` before the
loop, again with no `close(3)`. -/
theorem fatal_without_close :
    (chat_server_task true okStartup [selectFails]).map
        (fun r => (r.1, decide (Event.close 3 ∈ r.2))) = some (TaskEnd.exited 4, false) ∧
    (chat_server_task true hostnameFails [quietEnv]).map
        (fun r => (r.1, decide (Event.close 3 ∈ r.2))) = some (TaskEnd.aborted, false) := by
  constructor <;> decide

/-- C7, amended.  (a) When `bind` or `listen` returns non-zero or `mdns_init` fails, the task
never enters the loop: it ends deleted, its last two calls are `close(listener)` and
`vTaskDelete`, and no `accept`, `recv` or `send` is issued.  (b) When `mdns_hostname_set`
fails and the error check aborts, the task aborts before the loop, with no `accept`, `recv`
or `send` and without `close(listener)`.  (c) When `select` returns -1 in an iteration, the
loop is left at once: the iteration issues only the `select`, `perror` and `exit(4)`, and the
inputs of later iterations are never consumed. -/
theorem fatal_errors (checkAborts : Bool) (senv : StartupEnv) (envs : List IterEnv) :
    (senv.bindRet ≠ 0 ∨ senv.listenRet ≠ 0 ∨ senv.mdnsInitRet ≠ 0 →
      ∃ tr, chat_server_task checkAborts senv envs =
          some (TaskEnd.taskDeleted,
            tr ++ [Event.close senv.socketRet, Event.vTaskDelete]) ∧
        ∀ e ∈ tr, e.isService = false) ∧
    (senv.bindRet = 0 → senv.listenRet = 0 → senv.mdnsInitRet = 0 →
      senv.mdnsHostnameSetRet ≠ 0 → checkAborts = true →
      ∃ tr, chat_server_task checkAborts senv envs = some (TaskEnd.aborted, tr) ∧
        (∀ e ∈ tr, e.isService = false) ∧ Event.close senv.socketRet ∉ tr) ∧
    (∀ (s : LoopState) (tr : List Event) (env : IterEnv) (rest : List IterEnv),
      env.selectRet = -1 →
      runLoop s tr (env :: rest) =
        some (Outcome.exited 4,
          tr ++ [Event.select (s.fdmax + 1) s.master (-1), Event.log LogMsg.perrorSelect,
            Event.exit 4])) := by
  refine ⟨?_, ?_, ?_⟩
  · intro h
    obtain ⟨tr, h1, _⟩ := (startup_cases checkAborts senv).1 h
    refine ⟨tr, ?_, ?_⟩
    · simp [chat_server_task, h1]
    · intro e he
      apply startup_service_free checkAborts senv e
      rw [h1]
      exact List.mem_append_left _ he
  · intro h1 h2 h3 h4 h5
    obtain ⟨a, b⟩ := (startup_cases checkAborts senv).2 h1 h2 h3 h4 h5
    refine ⟨(startup checkAborts senv).2, ?_, startup_service_free checkAborts senv, b⟩
    have : startup checkAborts senv = (StartupEnd.aborted, (startup checkAborts senv).2) := by
      rw [← a]
    simp only [chat_server_task]
    rw [this]
  · intro s tr env rest h
    rcases iteration_cases s env with ⟨_, h1⟩ | ⟨h2, _⟩
    · simp only [runLoop, h1, selectEvent, h]
    · exact absurd h h2

/-! ## C8: no dangling reference -/

theorem membersAfter_append (m : Finset Int) (a b : List Event) :
    membersAfter m (a ++ b) = (membersAfter m a).bind (fun m1 => membersAfter m1 b) := by
  induction a generalizing m with
  | nil => rfl
  | cons e t ih =>
    cases e <;> simp only [List.cons_append, membersAfter] <;> (try split_ifs) <;>
      first | exact ih _ | rfl

theorem membersAfter_relay_flatMap (env : IterEnv) (s : LoopState) (i : Int) (pl : List Nat)
    (l : List Int) : membersAfter s.master (l.flatMap (relaySend env s i pl)) = some s.master := by
  induction l with
  | nil => rfl
  | cons j t ih =>
    rw [List.flatMap_cons, membersAfter_append]
    have : membersAfter s.master (relaySend env s i pl j) = some s.master := by
      unfold relaySend
      split_ifs with h1 h2 h3 <;> simp [membersAfter, h1]
    rw [this]
    exact ih

theorem membersAfter_heartbeat_flatMap (env : IterEnv) (s : LoopState) (l : List Int) :
    membersAfter s.master (l.flatMap (heartbeatSend env s)) = some s.master := by
  induction l with
  | nil => rfl
  | cons j t ih =>
    rw [List.flatMap_cons, membersAfter_append]
    have : membersAfter s.master (heartbeatSend env s j) = some s.master := by
      unfold heartbeatSend
      split_ifs with h1 h2 h3 <;> simp [membersAfter, h1]
    rw [this]
    exact ih

theorem membersAfter_stepEvents (env : IterEnv) (i : Int) (s : LoopState)
    (hi : i ∈ env.read_fds → i ∈ s.master) :
    membersAfter s.master (stepEvents env i s) = some (stepState env i s).master := by
  unfold stepEvents stepState
  by_cases h1 : i ∈ env.read_fds
  · have him := hi h1
    by_cases h2 : i = s.listener
    · subst h2
      by_cases h3 : env.acceptRet = -1
      · simp [h1, h3, membersAfter]
      · simp [h1, h3, membersAfter, keepaliveOpts, addConn_master]
    · by_cases h4 : (env.recvRet i).nbytes ≤ 0
      · simp [h1, h2, h4, membersAfter, him, removeConn]
      · simp only [h1, h2, h4, if_true, if_false, membersAfter, him]
        exact membersAfter_relay_flatMap env s i _ _
  · simp [h1, membersAfter]

theorem stepState_master_mem (env : IterEnv) (i k : Int) (s : LoopState) (hk : k ∈ s.master)
    (hne : k ≠ i) : k ∈ (stepState env i s).master := by
  unfold stepState
  split_ifs
  · exact hk
  · rw [addConn_master]
    exact Finset.mem_insert_of_mem hk
  · exact Finset.mem_erase.mpr ⟨hne, hk⟩
  · exact hk
  · exact hk

/-- One iteration under a sound `select` passes the monitor and ends with the members the
monitor computes. -/
theorem iteration_members {s : LoopState} {env : IterEnv} {o : Outcome} {t : List Event}
    (hsub : env.read_fds ⊆ s.master) (h : iteration s env = some (o, t)) :
    ∃ m, membersAfter s.master t = some m ∧ ∀ s1, o = Outcome.running s1 → s1.master = m := by
  rcases iteration_cases s env with ⟨_, h1⟩ | ⟨_, q, hq, h1⟩
  · rw [h1] at h
    simp only [Option.some.injEq, Prod.mk.injEq] at h
    obtain ⟨rfl, rfl⟩ := h
    exact ⟨s.master, by simp [membersAfter, selectEvent], fun s1 h2 => by cases h2⟩
  · obtain ⟨k, _, ⟨hk1, _⟩, _⟩ := dispatchLoop_induct env
      (fun i p => membersAfter s.master p.trace = some p.st.master ∧
        ∀ k, i ≤ k → k ∈ env.read_fds → k ∈ p.st.master)
      (fun i p hp _ => by
        obtain ⟨a, b⟩ := hp
        rw [dispatchBody_eq]
        refine ⟨?_, ?_⟩
        · simp only [membersAfter_append, a, Option.some_bind]
          exact membersAfter_stepEvents env i p.st (b i (le_refl _))
        · intro k hk hr
          exact stepState_master_mem env i k p.st (b k (by omega) hr) (by omega))
      _ _ _ q ⟨by simp [membersAfter, selectEvent], fun k _ hr => hsub hr⟩ hq
    rw [h1] at h
    simp only [Option.some.injEq, Prod.mk.injEq] at h
    obtain ⟨rfl, rfl⟩ := h
    refine ⟨q.st.master, ?_, fun s1 h2 => by cases h2; rfl⟩
    rw [membersAfter_append, hk1, Option.some_bind]
    split_ifs
    · rfl
    · exact membersAfter_heartbeat_flatMap env q.st _

theorem runLoop_members (m0 : Finset Int) :
    ∀ (envs : List IterEnv) (s : LoopState) (tr : List Event) (o : Outcome)
      (tr1 : List Event), selectSound s envs = true → membersAfter m0 tr = some s.master →
      runLoop s tr envs = some (o, tr1) →
      ∃ m, membersAfter m0 tr1 = some m ∧ ∀ s1, o = Outcome.running s1 → s1.master = m := by
  intro envs
  induction envs with
  | nil =>
    intro s tr o tr1 _ hm h
    simp only [runLoop, Option.some.injEq, Prod.mk.injEq] at h
    obtain ⟨rfl, rfl⟩ := h
    exact ⟨s.master, hm, fun s1 h2 => by cases h2; rfl⟩
  | cons env rest ih =>
    intro s tr o tr1 hsel hm h
    obtain ⟨⟨o1, t⟩, hit⟩ := iteration_total s env
    simp only [selectSound, Bool.and_eq_true, decide_eq_true_eq] at hsel
    obtain ⟨hsub, hrest⟩ := hsel
    obtain ⟨m, hm1, hm2⟩ := iteration_members hsub hit
    have hm3 : membersAfter m0 (tr ++ t) = some m := by
      rw [membersAfter_append, hm, Option.some_bind, hm1]
    unfold runLoop at h
    rw [hit] at h
    rw [hit] at hrest
    cases o1 with
    | running s1 =>
      have := hm2 s1 rfl
      subst this
      exact ih s1 _ o tr1 hrest hm3 h
    | exited c =>
      simp only [Option.some.injEq, Prod.mk.injEq] at h
      obtain ⟨rfl, rfl⟩ := h
      exact ⟨m, hm3, fun s1 h2 => by cases h2⟩

/-- The monitor rejects a trace that uses a handle after its `close`. -/
theorem membersAfter_rejects_dangling :
    membersAfter {3, 4} [Event.close 4, Event.send SendSite.relay 4 [104] 1] = none ∧
    (membersAfter {3, 4} [Event.close 4, Event.accept 3 4, Event.recv 4 256 1]).isSome =
      true := by
  constructor <;> decide

/-- C8. No dangling reference: from the initial loop state, along any finite run in which
every `select` reports only descriptors of the wait set it was given, the loop produces a
result and its trace passes the membership monitor started at `{listener}`: every `recv`,
`send` and `close` targets a handle that is a member of `master` at that moment, so a handle
that was closed is not used again until an `accept` returns it; and the members the monitor
ends with are the `master` of the final state. -/
theorem no_dangling_reference (listener : Int) (envs : List IterEnv)
    (hsel : selectSound (initState listener) envs = true) :
    ∃ o tr m, runLoop (initState listener) [] envs = some (o, tr) ∧
      membersAfter {listener} tr = some m ∧
      ∀ s, o = Outcome.running s → s.master = m := by
  obtain ⟨⟨o, tr⟩, h⟩ := runLoop_total envs (initState listener) []
  obtain ⟨m, h1, h2⟩ := runLoop_members {listener} envs (initState listener) [] o tr hsel rfl h
  exact ⟨o, tr, m, h, h1, h2⟩

/-! ## C9: what the bounds track -/

theorem admitted_append (a b : List Event) : admitted (a ++ b) = admitted a ++ admitted b := by
  induction a with
  | nil => rfl
  | cons e t ih =>
    cases e <;> simp only [List.cons_append, admitted] <;> (try split_ifs) <;> simp [ih]

theorem admitted_eq_nil {l : List Event} (h : ∀ e ∈ l, ∀ f r, e ≠ Event.accept f r) :
    admitted l = [] := by
  induction l with
  | nil => rfl
  | cons e t ih =>
    have ht := ih (fun e he => h e (List.mem_cons_of_mem _ he))
    cases e <;> simp only [admitted, ht]
    exact absurd rfl (h _ (List.mem_cons_self _ _) _ _)

theorem admitted_relayPass (env : IterEnv) (s : LoopState) (i : Int) (pl : List Nat) :
    admitted (relayPass env s i pl) = [] := by
  apply admitted_eq_nil
  intro e he f r
  rcases relayPass_events env s i pl e he with ⟨j, r1, rfl, _⟩ | rfl <;> simp

theorem admitted_heartbeatPass (env : IterEnv) (s : LoopState) :
    admitted (heartbeatPass env s) = [] := by
  apply admitted_eq_nil
  intro e he f r
  rcases heartbeatPass_events env s e he with ⟨j, r1, rfl⟩ | rfl <;> simp

theorem stepState_bounds (env : IterEnv) (i : Int) (s : LoopState) :
    (stepState env i s).fdmax = (admitted (stepEvents env i s)).foldl max s.fdmax ∧
    (stepState env i s).fdmin = (admitted (stepEvents env i s)).foldl min s.fdmin := by
  unfold stepState stepEvents
  by_cases h1 : i ∈ env.read_fds
  · by_cases h2 : i = s.listener
    · subst h2
      by_cases h3 : env.acceptRet = -1
      · simp [h1, h3, admitted]
      · simp [h1, h3, admitted, keepaliveOpts, addConn_fdmax, addConn_fdmin]
    · by_cases h4 : (env.recvRet i).nbytes ≤ 0
      · simp [h1, h2, h4, admitted, removeConn]
      · simp [h1, h2, h4, admitted, admitted_relayPass]
  · simp [h1, admitted]

theorem iteration_bounds {s s1 : LoopState} {env : IterEnv} {t : List Event}
    (h : iteration s env = some (Outcome.running s1, t)) :
    s1.fdmax = (admitted t).foldl max s.fdmax ∧ s1.fdmin = (admitted t).foldl min s.fdmin := by
  rcases iteration_cases s env with ⟨_, h1⟩ | ⟨_, q, hq, h1⟩
  · rw [h1] at h
    cases h
  · obtain ⟨k, _, ⟨hk1, hk2⟩, _⟩ := dispatchLoop_induct env
      (fun _ p => p.st.fdmax = (admitted p.trace).foldl max s.fdmax ∧
        p.st.fdmin = (admitted p.trace).foldl min s.fdmin)
      (fun i p hp _ => by
        obtain ⟨a, b⟩ := hp
        rw [dispatchBody_eq]
        simp only [admitted_append, List.foldl_append, ← a, ← b]
        exact stepState_bounds env i p.st)
      _ _ _ q ⟨by simp [admitted, selectEvent], by simp [admitted, selectEvent]⟩ hq
    rw [h1] at h
    simp only [Option.some.injEq, Prod.mk.injEq, Outcome.running.injEq] at h
    obtain ⟨rfl, rfl⟩ := h
    have hh : admitted (if q.found = true then [] else heartbeatPass env q.st) = [] := by
      split_ifs
      · rfl
      · exact admitted_heartbeatPass env q.st
    simp only [admitted_append, hh, List.append_nil]
    exact ⟨hk1, hk2⟩

/-- C9, as stated, fails.  With listener 3, an iteration that accepts handle 4 followed by
one in which client 4 closes leaves `master = {3}` with `fdmin = 3` and `fdmax = 4`: `fdmax`
is not the largest member of the wait set, indeed no member at all. -/
theorem bounds_not_exact_after_eviction :
    (runLoop (initState 3) [] [acceptFour, closeFour]).map (fun r => r.1) =
        some (Outcome.running { master := {3}, listener := 3, fdmin := 3, fdmax := 4 }) ∧
      ¬ ExactBounds { master := {3}, listener := 3, fdmin := 3, fdmax := 4 } := by
  refine ⟨by decide, ?_⟩
  intro h
  exact absurd h.2.1 (by decide)

/-- C9, amended.  From the initial loop state, after any finite run that is still running,
`fdmax` is the largest and `fdmin` the smallest of the handles admitted so far (the listener
and every handle a successful `accept` returned, whether or not it is still a member of
`master`); `addConn` (Add) sets `fdmax` to `max fdmax newfd` and `fdmin` to `min fdmin newfd`,
and `removeConn` (Remove) leaves both bounds as they are. -/
theorem bounds_track_admitted (listener : Int) (envs : List IterEnv) :
    (∃ o tr, runLoop (initState listener) [] envs = some (o, tr) ∧
      ∀ s, o = Outcome.running s →
        s.fdmax = (admitted tr).foldl max listener ∧
        s.fdmin = (admitted tr).foldl min listener) ∧
    (∀ (s : LoopState) (n : Int),
      (addConn s n).fdmax = max s.fdmax n ∧ (addConn s n).fdmin = min s.fdmin n) ∧
    (∀ (s : LoopState) (i : Int),
      (removeConn s i).fdmax = s.fdmax ∧ (removeConn s i).fdmin = s.fdmin) := by
  refine ⟨?_, fun s n => ⟨addConn_fdmax s n, addConn_fdmin s n⟩, fun s i => ⟨rfl, rfl⟩⟩
  obtain ⟨⟨o, tr⟩, h⟩ := runLoop_total envs (initState listener) []
  refine ⟨o, tr, h, ?_⟩
  refine runLoop_induct
    (fun o tr => ∀ s, o = Outcome.running s →
      s.fdmax = (admitted tr).foldl max listener ∧ s.fdmin = (admitted tr).foldl min listener)
    ?_ envs (initState listener) [] o tr (fun s hs => by cases hs; exact ⟨rfl, rfl⟩) h
  intro s0 tr0 env o0 t hp hit s1 hs1
  subst hs1
  obtain ⟨a, b⟩ := hp s0 rfl
  obtain ⟨c, d⟩ := iteration_bounds hit
  simp only [admitted_append, List.foldl_append, ← a, ← b]
  exact ⟨c, d⟩

/-! ## C10: the bounds enclose the wait set -/

theorem stepEvents_visit (env : IterEnv) (i : Int) (s : LoopState) (hr : i ∈ env.read_fds) :
    (i = s.listener → Event.accept i env.acceptRet ∈ stepEvents env i s) ∧
    (i ≠ s.listener → Event.recv i bufSize (env.recvRet i).nbytes ∈ stepEvents env i s) := by
  unfold stepEvents
  constructor
  · intro h
    subst h
    by_cases h3 : env.acceptRet = -1 <;> simp [hr, h3]
  · intro h
    by_cases h4 : (env.recvRet i).nbytes ≤ 0 <;> simp [hr, h, h4]

/-- The dispatch loop reaches every ready index between the bounds it starts with: the
listener gets its `accept`, any other index its `recv`. -/
theorem dispatchLoop_visits (env : IterEnv) (s : LoopState) (q : Pass)
    (h : dispatchLoop env (dispatchFuel s env) s.fdmin
      { st := s, found := false, trace := [selectEvent s env] } = some q) :
    ∀ d, s.fdmin ≤ d → d ≤ s.fdmax → d ∈ env.read_fds →
      (d = s.listener → Event.accept d env.acceptRet ∈ q.trace) ∧
      (d ≠ s.listener → Event.recv d bufSize (env.recvRet d).nbytes ∈ q.trace) := by
  obtain ⟨k, _, ⟨_, hk2, hk3⟩, hk4⟩ := dispatchLoop_induct env
    (fun i p => p.st.listener = s.listener ∧ s.fdmax ≤ p.st.fdmax ∧
      ∀ d, s.fdmin ≤ d → d < i → d ∈ env.read_fds →
        (d = s.listener → Event.accept d env.acceptRet ∈ p.trace) ∧
        (d ≠ s.listener → Event.recv d bufSize (env.recvRet d).nbytes ∈ p.trace))
    (fun i p hp _ => by
      obtain ⟨a, b, c⟩ := hp
      rw [dispatchBody_eq]
      refine ⟨by rw [stepState_listener]; exact a, le_trans b (stepState_fdmax_ge env i p.st), ?_⟩
      intro d hd1 hd2 hd3
      by_cases hdi : d < i
      · obtain ⟨c1, c2⟩ := c d hd1 hdi hd3
        exact ⟨fun e => List.mem_append_left _ (c1 e), fun e => List.mem_append_left _ (c2 e)⟩
      · have : d = i := by omega
        subst this
        obtain ⟨v1, v2⟩ := stepEvents_visit env d p.st hd3
        rw [a] at v1 v2
        exact ⟨fun e => List.mem_append_right _ (v1 e),
          fun e => List.mem_append_right _ (v2 e)⟩)
    _ _ _ q ⟨rfl, le_refl _, fun d h1 h2 _ => absurd h2 (by omega)⟩ h
  intro d h1 h2 h3
  exact hk3 d h1 (by omega) h3

/-- C10. Bounds enclose the wait set: in every state reachable from the initial loop state
by accepts (of any handle other than -1), evictions, relays and heartbeats, `fdmin ≤ fdmax`
and every handle of `master` lies between them; hence the scan `fdmin .. fdmax` of the relay
and heartbeat loops visits every member, `nfds = fdmax + 1` exceeds every member, and the
dispatch loop ends and reaches every ready member (the listener gets its `accept`, a client
its `recv`). -/
theorem bounds_enclose (listener : Int) (s : LoopState) (hs : Reachable listener s) :
    s.fdmin ≤ s.fdmax ∧
    (∀ h ∈ s.master, s.fdmin ≤ h ∧ h ≤ s.fdmax) ∧
    (∀ h ∈ s.master, h ∈ fdRange s.fdmin s.fdmax) ∧
    (∀ h ∈ s.master, h < s.fdmax + 1) ∧
    (∀ env : IterEnv, ∃ q,
      dispatchLoop env (dispatchFuel s env) s.fdmin
        { st := s, found := false,
          trace := [Event.select (s.fdmax + 1) s.master env.selectRet] } = some q ∧
      ∀ h ∈ s.master, h ∈ env.read_fds →
        (h = s.listener → Event.accept h env.acceptRet ∈ q.trace) ∧
        (h ≠ s.listener → Event.recv h bufSize (env.recvRet h).nbytes ∈ q.trace)) := by
  obtain ⟨_, h2, h3⟩ := hs.inv
  refine ⟨h2, h3, ?_, ?_, ?_⟩
  · intro h hh
    exact mem_fdRange.mpr (h3 h hh)
  · intro h hh
    have := (h3 h hh).2
    omega
  · intro env
    obtain ⟨q, hq⟩ := dispatch_total env s
      { st := s, found := false, trace := [selectEvent s env] } rfl
    refine ⟨q, hq, ?_⟩
    intro h hh hr
    exact dispatchLoop_visits env s q hq h (h3 h hh).1 (h3 h hh).2 hr

/-- Every state the loop reaches from the initial one by whole iterations is reachable by
the operations of the loop. -/
theorem runLoop_reachable (listener : Int) (envs : List IterEnv) (s : LoopState)
    (tr : List Event)
    (h : runLoop (initState listener) [] envs = some (Outcome.running s, tr)) :
    Reachable listener s :=
  (runLoop_listener listener envs (initState listener) [] _ tr Reachable.init (by simp) h).2
    s rfl

/-! ## Witnesses: the theorems at concrete inputs -/

theorem twoClients_reachable : Reachable 3 twoClients :=
  Reachable.accept 5 (Reachable.accept 4 Reachable.init (by decide)) (by decide)

/-- Witness for C1: listener 3, clients 4 and 5, client 4 sends the two bytes "hi": client 5
gets exactly one send. -/
theorem relay_fanout_witness :
    (4 : Int) ∈ hiFromFour.read_fds ∧ (hiFromFour.recvRet 4).nbytes = 2 ∧
    ((sendsOf (relayPass hiFromFour twoClients 4 ((hiFromFour.recvRet 4).buf.take 2))).map
      (fun x => x.2.1)).count 5 = 1 :=
  ⟨by decide, rfl,
    (relay_fanout 3 hiFromFour { st := twoClients, found := false, trace := [] } 4 2
      twoClients_reachable (by decide) (by decide) rfl (by decide) (by decide)
      (by
        show (([104, 105] : List Nat) ++ List.replicate 254 0).length = 256
        rw [List.length_append, List.length_replicate]
        rfl)).2.2.1 5 (by decide) (by decide) (by decide)⟩

/-- Witness for C2: client 4 closes; it is no longer in `master` afterwards. -/
theorem evict_on_close_or_error_witness :
    (4 : Int) ∈ closeFour.read_fds ∧ (closeFour.recvRet 4).nbytes ≤ 0 ∧
    (4 : Int) ∉ (dispatchBody closeFour 4
      { st := twoClients, found := false, trace := [] }).st.master :=
  ⟨by decide, by decide,
    (evict_on_close_or_error closeFour { st := twoClients, found := false, trace := [] } 4
      (by decide) (by decide) (by decide)).2.2.2.1⟩

/-- Witness for C3: with every send failing, the iteration in which client 4 says "hi" ends
in the same state with the same send attempts. -/
theorem send_failure_isolation_witness :
    (iteration twoClients (withSendResults hiFromFour (fun _ _ => -1) (fun _ => -1))).map
        (fun r => (r.1, sendsOf r.2)) =
      (iteration twoClients hiFromFour).map (fun r => (r.1, sendsOf r.2)) :=
  (send_failure_isolation 3 twoClients hiFromFour (fun _ _ => -1) (fun _ => -1)
    twoClients_reachable).1

/-- Witness for C4: a timeout with clients 4 and 5 connected. -/
theorem heartbeat_on_timeout_witness :
    quietEnv.selectRet ≠ -1 ∧
    iteration twoClients quietEnv =
      some (Outcome.running twoClients,
        Event.select (twoClients.fdmax + 1) twoClients.master quietEnv.selectRet ::
          heartbeatPass quietEnv twoClients) :=
  ⟨by decide,
    ((heartbeat_on_timeout 3 twoClients quietEnv twoClients_reachable (by decide)).1 rfl).1⟩

/-- Witness for C6: the first accept, returning handle 4. -/
theorem accept_path_witness :
    (3 : Int) ∈ acceptFour.read_fds ∧
    acceptFour.acceptRet ∈ (dispatchBody acceptFour 3
      { st := initState 3, found := false, trace := [] }).st.master :=
  ⟨by decide,
    ((accept_path 3 acceptFour { st := initState 3, found := false, trace := [] } 0
      Reachable.init (by decide)).1 (by decide)).2.1⟩

/-- Witness for C7: a failing `bind` ends in `close(3)` and `vTaskDelete`. -/
theorem fatal_errors_witness :
    ∃ tr, chat_server_task true bindFails [acceptFour] =
        some (TaskEnd.taskDeleted, tr ++ [Event.close 3, Event.vTaskDelete]) ∧
      ∀ e ∈ tr, e.isService = false :=
  (fatal_errors true bindFails [acceptFour]).1 (Or.inl (by decide))

/-- Witness for C8: client 4 connects, then closes. -/
theorem no_dangling_reference_witness :
    selectSound (initState 3) [acceptFour, closeFour] = true ∧
    ∃ o tr m, runLoop (initState 3) [] [acceptFour, closeFour] = some (o, tr) ∧
      membersAfter {3} tr = some m ∧ ∀ s, o = Outcome.running s → s.master = m :=
  ⟨by decide, no_dangling_reference 3 [acceptFour, closeFour] (by decide)⟩

/-- Witness for C10: listener 3 with clients 4 and 5. -/
theorem bounds_enclose_witness :
    twoClients.fdmin ≤ twoClients.fdmax ∧
    ∀ h ∈ twoClients.master, twoClients.fdmin ≤ h ∧ h ≤ twoClients.fdmax :=
  ⟨(bounds_enclose 3 twoClients twoClients_reachable).1,
    (bounds_enclose 3 twoClients twoClients_reachable).2.1⟩

end ChatServer
